import Mathlib

/-!
# Verification of the 2Cmetro route compiler

A shallow embedding of `src/metroroute.py` and `src/metrofares.py`:
the metro graph, BFS path/distance queries, the fare formula, the
path-to-itinerary compiler `get_route_from_path` and its post-processing
pass.  Python exceptions are modelled with an explicit error type,
Python's unbounded `while` loops with an explicit fuel parameter
(`none` = the loop was still running when the fuel ran out), and
Python's negative list indexing with an `Int`-indexed accessor.
-/

set_option maxRecDepth 4000000

namespace Metro

/-- The five metro lines (`class Line(Enum)` in the source). -/
inductive Line where
  | CTL | CSL | APL | HTL | RLR
deriving DecidableEq, Repr

/-- Python exceptions raised by the modelled code. -/
inductive Err where
  | keyError | indexError | valueError
deriving DecidableEq, Repr

/-- Itinerary actions.  `goTo` carries an extra optional `toLine` field:
the Python post-processing pass dynamically adds a `to_line` attribute to
`GoTo` dataclass instances; it is `none` until (and unless) that happens. -/
inductive Action where
  | transfer (atStation : String) (fromLine toLine : Line)
  | goTo (dest frm : String) (onLine : Line) (stations : List String) (toLine : Option Line)
  | beginAt (station : String)
  | arriveAt (station : String)
deriving DecidableEq, Repr

def Action.isGoTo : Action → Bool
  | .goTo _ _ _ _ _ => true
  | _ => false

def Action.isTransfer : Action → Bool
  | .transfer _ _ _ => true
  | _ => false

/-- Python list indexing `l[i]`: non-negative indices from the front,
negative indices count from the back; out of range is an `IndexError`
(modelled by `none`). -/
def pyGet (l : List α) (i : Int) : Option α :=
  if 0 ≤ i then l.get? i.toNat
  else if 0 ≤ i + l.length then l.get? (i + l.length).toNat
  else none

/-- The `STATION_LINES` table of `metroroute.py` (the commented-out
`kadena` entry excluded, as in the source). -/
def STATION_LINES : List (String × List Line) :=
  [("akemane", [.CTL, .APL]),
   ("hasiph", [.CTL, .CSL, .HTL]),
   ("korihasiph", [.CTL, .CSL]),
   ("southbridge", [.CTL]),
   ("parliament", [.CTL, .APL]),
   ("kandami", [.CTL]),
   ("kutsimati", [.CTL]),
   ("kemigitech", [.CTL, .HTL]),
   ("azadimoph", [.CTL]),
   ("venice", [.CSL, .APL]),
   ("waisharkil", [.CSL]),
   ("dern", [.CSL, .APL]),
   ("detech", [.CSL]),
   ("amiri", [.CSL, .RLR]),
   ("snowbing", [.CSL]),
   ("airport", [.APL]),
   ("quramitu", [.APL]),
   ("hayalese", [.APL]),
   ("university", [.APL]),
   ("distaye", [.APL]),
   ("rasir piss", [.APL, .HTL]),
   ("marcosia", [.APL]),
   ("sanzaleka", [.APL]),
   ("damatsalan", [.HTL]),
   ("kanahide", [.HTL]),
   ("yelojaber", [.HTL]),
   ("amirkhan", [.RLR]),
   ("amiri south", [.RLR])]

/-- Dictionary lookup `STATION_LINES[s]`; `none` models a `KeyError`. -/
def stationLines (s : String) : Option (List Line) :=
  (STATION_LINES.find? (fun p => p.1 == s)).map (fun p => p.2)

/-- All lines in declaration order; used to give the Python
`list(set ∩ …)` (whose iteration order is unspecified) a canonical,
deterministic order in the model. -/
def LINES : List Line := [.CTL, .CSL, .APL, .HTL, .RLR]

/-- `has_common(list1, list2)`: the two lists share an element. -/
def has_common (l1 l2 : List Line) : Bool :=
  l1.any (fun x => l2.contains x)

/-- `common_line_between_stations(stations)`: raises `ValueError` on an
empty list, `KeyError` on an unknown station; otherwise the intersection
of the stations' line sets (listed in the canonical `LINES` order, which
models Python's unspecified set-iteration order). -/
def common_line_between_stations (stations : List String) : Except Err (List Line) :=
  if stations.isEmpty then .error .valueError
  else
    match stations.mapM stationLines with
    | none => .error .keyError
    | some lss => .ok (LINES.filter (fun l => lss.all (fun ls => ls.contains l)))

/-- One evaluation of the lookahead lambda `cond` at index `i` with the
current line `cur`, mirroring Python's evaluation order:
`path[i]`, `STATION_LINES[path[i]]`, `path[i+1]`, `STATION_LINES[path[i+1]]`,
then `has_common(...) and cur in set(...) | set(...)`. -/
def condEval (path : List String) (i : Int) (cur : Line) : Except Err Bool :=
  match pyGet path i with
  | none => .error .indexError
  | some s1 =>
    match stationLines s1 with
    | none => .error .keyError
    | some l1 =>
      match pyGet path (i+1) with
      | none => .error .indexError
      | some s2 =>
        match stationLines s2 with
        | none => .error .keyError
        | some l2 => .ok (has_common l1 l2 && (l1.contains cur || l2.contains cur))

/-- Result of the inner `while cond():` scan: final index, accumulated
buffer, and the exception (if any) that stopped it. -/
inductive ScanRes where
  | res (i : Int) (buf : List String) (exc : Option Err)
  | fuelOut
deriving DecidableEq, Repr

/-- The inner scan `while cond(): buf.append(path[i]); i += 1`.
Structurally recursive on a fuel argument; callers pass more than enough
fuel, and running out is reported as `fuelOut`. -/
def scanAux (path : List String) (cur : Line) : Nat → Int → List String → ScanRes
  | 0, _, _ => .fuelOut
  | k+1, i, buf =>
    match condEval path i cur with
    | .error e => .res i buf (some e)
    | .ok false => .res i buf none
    | .ok true =>
      match pyGet path i with
      | none => .res i buf (some .indexError)
      | some s => scanAux path cur k (i+1) (buf ++ [s])

/-- The mutable state of the main `while i < len(path):` loop. -/
structure St where
  i : Int
  route : List Action
  buf : List String
  bg : String
  cur : Line
deriving DecidableEq, Repr

/-- The tail of a loop iteration from `if len(STATION_LINES[path[i]]) > 1:`
onwards: either finishes the whole computation (`Sum.inl`) or yields the
state for the next iteration (`Sum.inr`). -/
def step4 (path : List String) (i2 : Int) (route1 : List Action)
    (buf2 : List String) (bg1 : String) (cur1 : Line) :
    Sum (Option (Except Err (List Action))) St :=
  match pyGet path i2 with
  | none => .inl (some (.error .indexError))
  | some st =>
    match stationLines st with
    | none => .inl (some (.error .keyError))
    | some ls =>
      if 1 < ls.length then
        match ls with
        | [] => .inl (some (.error .indexError))
        | l :: _ =>
          let route2 := route1 ++ [.goTo st bg1 l buf2 none]
          match pyGet path (i2 + 1) with
          | none => .inl (some (.error .indexError))
          | some nxt =>
            match stationLines nxt with
            | none => .inl (some (.error .keyError))
            | some nls =>
              match nls.head? with
              | none => .inl (some (.error .indexError))
              | some nl0 =>
                .inr ⟨i2 + 1, route2 ++ [.transfer st nl0 l], [st, nxt], st, l⟩
      else .inr ⟨i2, route1, buf2, bg1, cur1⟩

/-- The `except IndexError` handler body (entered when the scan stopped
with an `IndexError` at the last path index): closes the final segment,
patches a trailing `Transfer`, and `break`s with the finished route. -/
def handlerPart (path : List String) (i' : Int) (route1 : List Action)
    (buf' : List String) (bg1 : String) (cur1 : Line) :
    Sum (Option (Except Err (List Action))) St :=
  match route1.getLast? with
  | none => .inl (some (.error .indexError))
  | some last =>
    if last.isGoTo then
      step4 path i' route1 buf' bg1 cur1
    else
      match common_line_between_stations buf' with
      | .error e => .inl (some (.error e))
      | .ok commons =>
        match commons.head? with
        | none => .inl (some (.error .indexError))
        | some cl =>
          match pyGet path i' with
          | none => .inl (some (.error .indexError))
          | some plast =>
            let buf2 := buf' ++ [plast]
            let route2 :=
              match route1.getLast? with
              | some (.transfer a fl _) =>
                  route1.set (route1.length - 1) (.transfer a fl cl)
              | _ => route1
            .inl (some (.ok
              (route2 ++ [.goTo plast bg1 cl buf2 none, .arriveAt plast])))

/-- The part of a loop iteration from the `try`ed inner scan onwards:
the scan, the `except IndexError` handler (whose `break` produces
`Sum.inl (some (.ok …))`), and `step4`. -/
def runScanPart (path : List String) (i0 : Int) (route1 : List Action)
    (buf0 : List String) (bg1 : String) (cur1 : Line) :
    Sum (Option (Except Err (List Action))) St :=
  match scanAux path cur1 (2 * path.length + 2) i0 buf0 with
  | .fuelOut => .inl none
  | .res i' buf' exc =>
    match exc with
    | some Err.indexError =>
      if i' = (path.length : Int) - 1 then
        handlerPart path i' route1 buf' bg1 cur1
      else step4 path i' route1 buf' bg1 cur1
    | some e => .inl (some (.error e))
    | none => step4 path (i' - 1) route1 buf' bg1 cur1

/-- One full iteration of the body of `while i < len(path):` in
`get_route_from_path`: the `i == 0` initialisation followed by
`runScanPart`. -/
def runBody (path : List String) (s : St) :
    Sum (Option (Except Err (List Action))) St :=
  if s.i = 0 then
    match pyGet path 0 with
    | none => .inl (some (.error .indexError))
    | some p0 =>
      match stationLines p0 with
      | none => .inl (some (.error .keyError))
      | some [] => .inl (some (.error .indexError))
      | some (l :: _) => runScanPart path s.i (s.route ++ [.beginAt p0]) s.buf p0 l
  else runScanPart path s.i s.route s.buf s.bg s.cur

/-- The main loop of `get_route_from_path`, driven by fuel: `none` means
the loop was still running when the fuel ran out (in particular, a result
of `none` for every fuel value means the Python loop never terminates). -/
def loopIter (path : List String) : Nat → St → Option (Except Err (List Action))
  | 0, _ => none
  | fuel+1, s =>
    if s.i < (path.length : Int) then
      match runBody path s with
      | .inl r => r
      | .inr s' => loopIter path fuel s'
    else some (.ok s.route)

/-- One step of the post-processing `for i, actn in enumerate(route):`
loop at index `i` (recursion on the remaining count `k`).  For a `GoTo`,
`on_line` is recomputed from its `stations` buffer and `route[i+1]` is
inspected (an out-of-range access is an uncaught `IndexError`); for a
`Transfer`, `from_line` is copied from a preceding `GoTo`
(`route[i-1]`, which for `i = 0` is Python's `route[-1]`, the last element). -/
def postAux : Nat → Nat → List Action → Except Err (List Action)
  | 0, _, route => .ok route
  | k+1, i, route =>
    match route.get? i with
    | none => .ok route
    | some act =>
      match act with
      | .goTo dest frm _ stops tl =>
        match common_line_between_stations stops with
        | .error e => .error e
        | .ok commons =>
          match commons.head? with
          | none => .error .indexError
          | some line =>
            match route.get? (i+1) with
            | none => .error .indexError
            | some nxt =>
              let tl' := match nxt with
                | .transfer _ _ ntl => some ntl
                | _ => tl
              postAux k (i+1) (route.set i (.goTo dest frm line stops tl'))
      | .transfer a _ tl =>
        let prev := if i = 0 then route.getLast? else route.get? (i-1)
        let act' := match prev with
          | some (.goTo _ _ ol _ _) => Action.transfer a ol tl
          | _ => act
        postAux k (i+1) (route.set i act')
      | _ => postAux k (i+1) route

/-- The post-processing pass over the compiled action list. -/
def postprocess (route : List Action) : Except Err (List Action) :=
  postAux route.length 0 route

/-- `get_route_from_path(path)`.  `fuel` bounds the number of iterations
of the main `while` loop; `none` means the loop was still running.
A `some (.error e)` is a propagated Python exception, `some (.ok r)` a
normal return of the post-processed route. -/
def get_route_from_path (fuel : Nat) (path : List String) :
    Option (Except Err (List Action)) :=
  match loopIter path fuel ⟨0, [], [], "", .CTL⟩ with
  | none => none
  | some (.error e) => some (.error e)
  | some (.ok compiled) => some (postprocess compiled)

/-! ## The graph model (`MetroNetwork`) -/

/-- The `STATIONS` table (line name ↦ ordered station sequence); the
commented-out `kadena` entry is excluded, as in the source. -/
def STATIONS : List (String × List String) :=
  [("central",
    ["hasiph", "korihasiph", "southbridge", "parliament", "kandami",
     "kutsimati", "kemigitech", "azadimoph"]),
   ("coastal",
    ["venice", "waisharkil", "korihasiph", "hasiph", "dern", "detech",
     "amiri", "snowbing"]),
   ("airport",
    ["airport", "venice", "quramitu", "hayalese", "university",
     "parliament", "distaye", "rasir piss", "marcosia", "sanzaleka",
     "akemane", "dern"]),
   ("hattakesh",
    ["hasiph", "damatsalan", "rasir piss", "kanahide", "kemigitech",
     "yelojaber"])]

/-- The adjacency dictionary `self.graph`, modelled as an association
list preserving Python's dict insertion order. -/
abbrev Graph := List (String × List String)

def graphLookup (g : Graph) (s : String) : Option (List String) :=
  (g.find? (fun p => p.1 == s)).map (fun p => p.2)

def hasStation (g : Graph) (s : String) : Bool :=
  (graphLookup g s).isSome

/-- `add_station`: register the key with an empty adjacency list if absent. -/
def add_station (g : Graph) (s : String) : Graph :=
  if g.any (fun p => p.1 == s) then g else g ++ [(s, [])]

/-- Append `n` to the adjacency list of `s`. -/
def adjAppend (g : Graph) (s n : String) : Graph :=
  g.map (fun p => if p.1 == s then (p.1, p.2 ++ [n]) else p)

/-- `add_connection`: register both stations, then add the edge in both
directions. -/
def add_connection (g : Graph) (a b : String) : Graph :=
  adjAppend (adjAppend (add_station (add_station g a) b) a b) b a

/-- `add_connections`: connect every consecutive pair of the sequence. -/
def add_connections (g : Graph) (conns : List String) : Graph :=
  (conns.zip conns.tail).foldl (fun g p => add_connection g p.1 p.2) g

/-- The graph built in `main()` from the four `STATIONS` sequences. -/
def metro : Graph := STATIONS.foldl (fun g p => add_connections g p.2) []

/-- BFS queue loop of `get_path` (queue entries carry the path so far). -/
def getPathAux (g : Graph) (fin : String) :
    Nat → List (String × List String) → List String → Option (List String)
  | 0, _, _ => none
  | _+1, [], _ => none
  | f+1, (cur, pth) :: rest, visited =>
    if cur == fin then some pth
    else if visited.contains cur then getPathAux g fin f rest visited
    else
      let nbrs := (graphLookup g cur).getD []
      let visited' := visited ++ [cur]
      getPathAux g fin f
        (rest ++ (nbrs.filter (fun n => !(visited'.contains n))).map
          (fun n => (n, pth ++ [n])))
        visited'

/-- `MetroNetwork.get_path(start, end)`.  The BFS fuel `10000` far
exceeds the number of queue entries any query on the fixed metro graph
can produce. -/
def get_path (g : Graph) (start fin : String) : Option (List String) :=
  if hasStation g start && hasStation g fin then
    getPathAux g fin 10000 [(start, [start])] []
  else none

/-- BFS queue loop of `shortest_path` (queue entries carry hop counts). -/
def shortestPathAux (g : Graph) (fin : String) :
    Nat → List (String × Nat) → List String → Option Nat
  | 0, _, _ => none
  | _+1, [], _ => none
  | f+1, (cur, d) :: rest, visited =>
    if cur == fin then some d
    else if visited.contains cur then shortestPathAux g fin f rest visited
    else
      let nbrs := (graphLookup g cur).getD []
      let visited' := visited ++ [cur]
      shortestPathAux g fin f
        (rest ++ (nbrs.filter (fun n => !(visited'.contains n))).map
          (fun n => (n, d + 1)))
        visited'

/-- `MetroNetwork.shortest_path(start, end)`. -/
def shortest_path (g : Graph) (start fin : String) : Option Nat :=
  if hasStation g start && hasStation g fin then
    shortestPathAux g fin 10000 [(start, 0)] []
  else none

/-- `MetroNetwork.calculate_fare(start, end)`: `ValueError` ("invalid
route") when no distance exists, else `5 + (distance - 1)` if that is at
least `5`, and `-1` otherwise. -/
def calculate_fare (g : Graph) (start fin : String) : Except Err Int :=
  match shortest_path g start fin with
  | none => .error .valueError
  | some d =>
    let total : Int := 5 + ((d : Int) - 1)
    if 5 ≤ total then .ok total else .ok (-1)

/-! ## Shape predicates for the itinerary alternation invariant -/

/-- `(GoTo, Transfer)*`: alternating pairs. -/
def tailShape : List Action → Bool
  | [] => true
  | .goTo _ _ _ _ _ :: .transfer _ _ _ :: rest => tailShape rest
  | _ => false

/-- `(GoTo, Transfer)* GoTo ArriveAt`. -/
def finTail : List Action → Bool
  | [.goTo _ _ _ _ _, .arriveAt _] => true
  | .goTo _ _ _ _ _ :: .transfer _ _ _ :: rest => finTail rest
  | _ => false

/-- `BeginAt, (GoTo, Transfer)*, GoTo, ArriveAt`. -/
def finShape : List Action → Bool
  | .beginAt _ :: t => finTail t
  | _ => false

/-- No two adjacent elements are both `Transfer`s. -/
def noConsecutiveTransfers : List Action → Bool
  | a :: b :: rest => (!(a.isTransfer && b.isTransfer)) && noConsecutiveTransfers (b :: rest)
  | _ => true

/-- Constructor skeleton of an action: the post-processing pass only
rewrites fields of `GoTo`/`Transfer` entries, so it preserves this map. -/
def skel : Action → Action
  | .transfer _ _ _ => .transfer "" .CTL .CTL
  | .goTo _ _ _ _ _ => .goTo "" "" .CTL [] none
  | .beginAt s => .beginAt s
  | .arriveAt s => .arriveAt s

/-! ## Basic helper lemmas -/

theorem pyGet_nonneg {l : List α} {i : Int} (h : 0 ≤ i) :
    pyGet l i = l.get? i.toNat := by
  simp [pyGet, h]

theorem pyGet_zero_of_ne_nil {l : List α} (h : l ≠ []) :
    pyGet l 0 = l.head? := by
  cases l with
  | nil => exact absurd rfl h
  | cons a t => simp [pyGet]

/-! ## C9: symmetry of `shortest_path` -/

/-- The station keys of the built metro graph, in insertion order. -/
def stationKeys : List String := metro.map (fun p => p.1)

/-- All 26 × 26 pairs of graph stations have symmetric BFS distances. -/
theorem shortest_path_symm_all_pairs :
    (stationKeys.all (fun s => stationKeys.all (fun e =>
      shortest_path metro s e == shortest_path metro e s))) = true := by decide

theorem hasStation_mem_keys {g : Graph} {s : String} (h : hasStation g s = true) :
    s ∈ g.map (fun p => p.1) := by
  unfold hasStation graphLookup at h
  cases hf : g.find? (fun p => p.1 == s) with
  | none => rw [hf] at h; simp at h
  | some p =>
    have hmem := List.mem_of_find?_eq_some hf
    have hp := List.find?_some hf
    have hps : p.1 = s := by simpa using hp
    exact hps ▸ List.mem_map_of_mem (fun q => q.1) hmem

/-- C9: for every pair of stations known to the graph with a connecting
path, `shortest_path start end = shortest_path end start` (BFS-distance
symmetry on the undirected graph built by `add_connection`). -/
theorem C9_shortest_path_symm (s e : String)
    (hs : hasStation metro s = true) (he : hasStation metro e = true)
    (_hconn : shortest_path metro s e ≠ none) :
    shortest_path metro s e = shortest_path metro e s := by
  have hs' : s ∈ stationKeys := hasStation_mem_keys hs
  have he' : e ∈ stationKeys := hasStation_mem_keys he
  have h1 := shortest_path_symm_all_pairs
  rw [List.all_eq_true] at h1
  have h2 := h1 s hs'
  rw [List.all_eq_true] at h2
  exact eq_of_beq (h2 e he')

/-- Witness of `C9_shortest_path_symm` at a concrete pair. -/
theorem C9_witness :
    shortest_path metro "hasiph" "airport" = shortest_path metro "airport" "hasiph" :=
  C9_shortest_path_symm "hasiph" "airport" (by decide) (by decide) (by decide)

/-! ## C7: the fare formula -/

/-- Counterexample to C7 as stated: for the same-station query the code
returns `-1`, not `max(5, 5 + (distance - 1)) = 5`. -/
theorem C7_cex :
    shortest_path metro "hasiph" "hasiph" = some 0 ∧
    calculate_fare metro "hasiph" "hasiph" = .ok (-1) ∧
    ¬ ((-1 : Int) = max 5 (5 + ((0 : Int) - 1))) := by
  refine ⟨by decide, by rfl, by decide⟩

/-- C7 (amended): `calculate_fare` fails with the `InvalidRoute`
`ValueError` exactly when `shortest_path` is absent; otherwise it returns
`5 + (distance - 1)` when that total is at least `5`, and `-1` otherwise
(the two agree with `max(5, …)` for every distance ≥ 1 but differ at
distance 0). -/
theorem C7_calculate_fare (s e : String) :
    (calculate_fare metro s e = .error .valueError ↔
      shortest_path metro s e = none) ∧
    (∀ d : Nat, shortest_path metro s e = some d →
      calculate_fare metro s e =
        .ok (if 5 ≤ 5 + ((d : Int) - 1) then 5 + ((d : Int) - 1) else -1)) := by
  unfold calculate_fare
  cases h : shortest_path metro s e with
  | none => simp
  | some d =>
    constructor
    · constructor
      · intro hc
        by_cases h5 : 5 ≤ 5 + ((d : Int) - 1) <;> simp [h5] at hc
      · intro hc; exact absurd hc (by simp)
    · intro d' hd'
      have hdd : d' = d := by
        injection hd' with h3
        exact h3.symm
      subst hdd
      by_cases h5 : 5 ≤ 5 + ((d' : Int) - 1) <;> simp [h5]

/-- Witness of `C7_calculate_fare` at a concrete pair (distance 2). -/
theorem C7_witness :
    calculate_fare metro "hasiph" "southbridge" =
      .ok (if 5 ≤ 5 + ((2 : Int) - 1) then 5 + ((2 : Int) - 1) else -1) :=
  (C7_calculate_fare "hasiph" "southbridge").2 2 (by decide)

/-! ## C8: the single-line scenario -/

/-- Counterexample to C8 as stated: the fare for `hasiph → southbridge`
is 6 (distance 2), not the 7 the spec scenario quotes. -/
theorem C8_cex :
    calculate_fare metro "hasiph" "southbridge" = .ok 6 ∧ ¬ ((6 : Int) = 7) := by
  refine ⟨by rfl, by decide⟩

/-- C8 (amended): the itinerary for `["hasiph","korihasiph","southbridge"]`
is exactly as the scenario states, and the fare is 6. -/
theorem C8_scenario :
    get_route_from_path 1 ["hasiph", "korihasiph", "southbridge"] =
      some (.ok [.beginAt "hasiph",
        .goTo "southbridge" "hasiph" .CTL ["hasiph", "korihasiph", "southbridge"] none,
        .arriveAt "southbridge"]) ∧
    calculate_fare metro "hasiph" "southbridge" = .ok 6 := by
  refine ⟨by rfl, by rfl⟩

/-! ## C2: the parliament interchange scenario -/

/-- C2: the BFS path from `southbridge` to `university` does cross the
`parliament` interchange, but the compiler rides through it without
emitting a `Transfer`, and the post-processing pass then crashes with an
uncaught `IndexError` (`common_line_between_stations` of the full
`stops` buffer is empty, so `[0]` fails): no itinerary is returned. -/
theorem C2_parliament_crash :
    get_path metro "southbridge" "university" =
      some ["southbridge", "parliament", "university"] ∧
    get_route_from_path 1 ["southbridge", "parliament", "university"] =
      some (.error .indexError) := by
  refine ⟨by decide, by rfl⟩

/-! ## C6: the empty path -/

/-- Counterexample to C6 as stated: the empty path returns a value
(the empty action list); no `EmptyPath`-style error is raised. -/
theorem C6_cex :
    get_route_from_path 1 [] = some (.ok ([] : List Action)) ∧
    ¬ ∃ e : Err, get_route_from_path 1 [] = some (.error e) := by
  refine ⟨rfl, ?_⟩
  rintro ⟨e, he⟩
  rw [show get_route_from_path 1 [] = some (.ok ([] : List Action)) from rfl] at he
  simp at he

/-- C6 (amended): on a zero-element path `get_route_from_path` skips its
loop entirely and returns the empty action list. -/
theorem C6_empty_path (fuel : Nat) (h : 1 ≤ fuel) :
    get_route_from_path fuel [] = some (.ok []) := by
  cases fuel with
  | zero => exact absurd h (by decide)
  | succ f => rfl

/-- Witness of `C6_empty_path` at fuel 1. -/
theorem C6_witness : get_route_from_path 1 [] = some (.ok []) :=
  C6_empty_path 1 (by decide)

/-! ## C5: non-termination on a real BFS path -/

/-- On the path `hasiph → damatsalan → rasir piss` the loop returns to
the same state (`i = 1`, `curline = CTL`) after every iteration — the
transfer code resets `curline` to the first line of the *current*
station instead of the next one — so it never finishes. -/
theorem loopIter_hasiph_stuck :
    ∀ fuel (route : List Action) (buf : List String) (bg : String),
      loopIter ["hasiph", "damatsalan", "rasir piss"] fuel
        ⟨1, route, buf, bg, .CTL⟩ = none := by
  intro fuel
  induction fuel with
  | zero => intro route buf bg; rfl
  | succ f ih =>
    intro route buf bg
    have hstep : loopIter ["hasiph", "damatsalan", "rasir piss"] (f+1)
          ⟨1, route, buf, bg, .CTL⟩ =
        loopIter ["hasiph", "damatsalan", "rasir piss"] f
          ⟨1, (route ++ [.goTo "hasiph" bg .CTL buf none]) ++ [.transfer "hasiph" .HTL .CTL],
           ["hasiph", "damatsalan"], "hasiph", .CTL⟩ := by
      simp only [loopIter]
      rfl
    rw [hstep, ih]

/-- C5: `["hasiph","damatsalan","rasir piss"]` is the path BFS returns
for the query hasiph → rasir piss, yet `get_route_from_path` never
terminates on it: for every fuel bound the loop is still running. -/
theorem C5_nontermination :
    get_path metro "hasiph" "rasir piss" =
      some ["hasiph", "damatsalan", "rasir piss"] ∧
    ∀ fuel, get_route_from_path fuel ["hasiph", "damatsalan", "rasir piss"] = none := by
  refine ⟨by decide, ?_⟩
  intro fuel
  cases fuel with
  | zero => rfl
  | succ f =>
    unfold get_route_from_path
    have h1 : loopIter ["hasiph", "damatsalan", "rasir piss"] (f+1)
          ⟨0, [], [], "", .CTL⟩ =
        loopIter ["hasiph", "damatsalan", "rasir piss"] f
          ⟨1, [.beginAt "hasiph", .goTo "hasiph" "hasiph" .CTL ["hasiph"] none,
              .transfer "hasiph" .HTL .CTL],
           ["hasiph", "damatsalan"], "hasiph", .CTL⟩ := by
      simp only [loopIter]
      rfl
    rw [h1, loopIter_hasiph_stuck]

/-- Witness of `C5_nontermination`'s universally quantified part at a
concrete fuel value. -/
theorem C5_witness :
    get_route_from_path 50 ["hasiph", "damatsalan", "rasir piss"] = none :=
  C5_nontermination.2 50

/-! ## C10: single-element paths -/

/-- Decidable equality for modelled Python results. -/
instance instDecEqExcept {e a : Type} [DecidableEq e] [DecidableEq a] :
    DecidableEq (Except e a) := fun x y =>
  match x, y with
  | .ok u, .ok v =>
    if h : u = v then isTrue (by rw [h])
    else isFalse (fun hc => by injection hc; exact h (by assumption))
  | .error u, .error v =>
    if h : u = v then isTrue (by rw [h])
    else isFalse (fun hc => by injection hc; exact h (by assumption))
  | .ok _, .error _ => isFalse (fun hc => by injection hc)
  | .error _, .ok _ => isFalse (fun hc => by injection hc)

/-- A loop iteration that finishes determines the result whatever the
remaining fuel is. -/
theorem loopIter_succ_inl {p : List String} {s : St}
    {r : Option (Except Err (List Action))}
    (h : runBody p s = .inl r) (hlt : s.i < (p.length : Int)) (fuel : Nat) :
    loopIter p (fuel+1) s = r := by
  simp only [loopIter]
  rw [if_pos hlt, h]

theorem stationLines_some_mem {x : String} {ls : List Line}
    (h : stationLines x = some ls) : x ∈ STATION_LINES.map (fun p => p.1) := by
  unfold stationLines at h
  cases hf : STATION_LINES.find? (fun p => p.1 == x) with
  | none => rw [hf] at h; simp at h
  | some p =>
    have hmem := List.mem_of_find?_eq_some hf
    have hp := List.find?_some hf
    have hps : p.1 = x := by simpa using hp
    exact hps ▸ List.mem_map_of_mem (fun q => q.1) hmem

/-- For each of the 28 stations of the table, the first loop iteration
on the one-element path ends in the empty-buffer `ValueError`, and a
same-station BFS query returns the one-element path. -/
theorem single_station_check :
    ∀ x ∈ STATION_LINES.map (fun p => p.1),
      runBody [x] ⟨0, [], [], "", .CTL⟩ = .inl (some (.error .valueError)) ∧
      (hasStation metro x = true → get_path metro x x = some [x]) := by decide

/-- C10: a single-element path `[x]` with `x` in `STATION_LINES` makes
`get_route_from_path` hit `common_line_between_stations` with an empty
buffer, raising its `ValueError`; no itinerary is ever returned.  And
`get_path x x` indeed returns `[x]` for a same-station query. -/
theorem C10_single_station (x : String) (ls : List Line)
    (hx : stationLines x = some ls) (fuel : Nat) (hf : 1 ≤ fuel) :
    get_route_from_path fuel [x] = some (.error .valueError) ∧
    (hasStation metro x = true → get_path metro x x = some [x]) := by
  obtain ⟨hrb, hgp⟩ := single_station_check x (stationLines_some_mem hx)
  refine ⟨?_, hgp⟩
  cases fuel with
  | zero => exact absurd hf (by decide)
  | succ f =>
    unfold get_route_from_path
    have hlt : ((⟨0, [], [], "", .CTL⟩ : St)).i < (([x] : List String).length : Int) := by
      show (0 : Int) < 1
      decide
    rw [loopIter_succ_inl hrb hlt f]

/-- Witness of `C10_single_station` at `x = "hasiph"`, fuel 1. -/
theorem C10_witness :
    get_route_from_path 1 ["hasiph"] = some (.error .valueError) ∧
    (hasStation metro "hasiph" = true →
      get_path metro "hasiph" "hasiph" = some ["hasiph"]) :=
  C10_single_station "hasiph" [.CTL, .CSL, .HTL] rfl 1 (by decide)

/-! ## C1: every returned GoTo rides a line common to its stops -/

theorem postAux_none (f i : Nat) (route : List Action)
    (hi : route.get? i = none) : postAux (f+1) i route = .ok route := by
  conv_lhs => unfold postAux; rw [hi]

theorem postAux_goTo (f i : Nat) (route : List Action) (d fr : String)
    (ln0 : Line) (stops0 : List String) (tl0 : Option Line)
    (hi : route.get? i = some (.goTo d fr ln0 stops0 tl0)) :
    postAux (f+1) i route =
      match common_line_between_stations stops0 with
      | .error e => .error e
      | .ok commons =>
        match commons.head? with
        | none => .error .indexError
        | some line =>
          match route.get? (i+1) with
          | none => .error .indexError
          | some nxt =>
            postAux f (i+1) (route.set i (.goTo d fr line stops0
              (match nxt with | .transfer _ _ ntl => some ntl | _ => tl0))) := by
  conv_lhs => unfold postAux; rw [hi]

theorem postAux_transfer (f i : Nat) (route : List Action) (a0 : String)
    (fl0 tl0 : Line)
    (hi : route.get? i = some (.transfer a0 fl0 tl0)) :
    postAux (f+1) i route =
      postAux f (i+1) (route.set i
        (match (if i = 0 then route.getLast? else route.get? (i-1)) with
         | some (.goTo _ _ ol _ _) => Action.transfer a0 ol tl0
         | _ => .transfer a0 fl0 tl0)) := by
  conv_lhs => unfold postAux; rw [hi]

theorem postAux_beginAt (f i : Nat) (route : List Action) (st0 : String)
    (hi : route.get? i = some (.beginAt st0)) :
    postAux (f+1) i route = postAux f (i+1) route := by
  conv_lhs => unfold postAux; rw [hi]

theorem postAux_arriveAt (f i : Nat) (route : List Action) (st0 : String)
    (hi : route.get? i = some (.arriveAt st0)) :
    postAux (f+1) i route = postAux f (i+1) route := by
  conv_lhs => unfold postAux; rw [hi]

theorem postAux_goTo_commons : ∀ k i route out,
    postAux k i route = .ok out →
    route.length ≤ i + k →
    (∀ j dest frm ln stops tl, j < i →
        route.get? j = some (.goTo dest frm ln stops tl) →
        ∃ cls, common_line_between_stations stops = .ok cls ∧ ln ∈ cls) →
    ∀ j dest frm ln stops tl, out.get? j = some (.goTo dest frm ln stops tl) →
      ∃ cls, common_line_between_stations stops = .ok cls ∧ ln ∈ cls := by
  intro k
  induction k with
  | zero =>
    intro i route out h hlen hpre j dest frm ln stops tl hj
    have hout : out = route := by
      unfold postAux at h
      injection h with h2
      exact h2.symm
    subst hout
    have hjlt : j < out.length := (List.get?_eq_some.mp hj).1
    exact hpre j dest frm ln stops tl (by omega) hj
  | succ f ih =>
    intro i route out h hlen hpre
    cases hi : route.get? i with
    | none =>
      rw [postAux_none f i route hi] at h
      injection h with h2
      subst h2
      intro j dest frm ln stops tl hj
      have hjlt : j < route.length := (List.get?_eq_some.mp hj).1
      have hilen : route.length ≤ i := by
        rcases Nat.lt_or_ge i route.length with hlt | hge
        · exact absurd hi (by
            rw [List.get?_eq_get hlt]
            simp)
        · exact hge
      exact hpre j dest frm ln stops tl (by omega) hj
    | some act =>
      have hilt : i < route.length := (List.get?_eq_some.mp hi).1
      cases act with
      | goTo d fr ln0 stops0 tl0 =>
        rw [postAux_goTo f i route d fr ln0 stops0 tl0 hi] at h
        split at h
        · exact absurd h (by simp)
        · rename_i cls hc
          split at h
          · exact absurd h (by simp)
          · rename_i line hh
            split at h
            · exact absurd h (by simp)
            · rename_i nxt hn
              refine ih (i+1) _ out h (by rw [List.length_set]; omega) ?_
              intro j dest frm ln stops tl hji hj
              rcases Nat.lt_or_ge j i with hlt | hge
              · rw [List.get?_set_ne _ _ (by omega)] at hj
                exact hpre j dest frm ln stops tl hlt hj
              · rw [show j = i by omega] at hj
                rw [List.get?_set_eq_of_lt _ hilt] at hj
                injection hj with hj2
                cases hj2
                exact ⟨cls, hc, List.mem_of_mem_head? hh⟩
      | transfer a0 fl0 tl0 =>
        rw [postAux_transfer f i route a0 fl0 tl0 hi] at h
        refine ih (i+1) _ out h (by rw [List.length_set]; omega) ?_
        intro j dest frm ln stops tl hji hj
        rcases Nat.lt_or_ge j i with hlt | hge
        · rw [List.get?_set_ne _ _ (by omega)] at hj
          exact hpre j dest frm ln stops tl hlt hj
        · rw [show j = i by omega] at hj
          rw [List.get?_set_eq_of_lt _ hilt] at hj
          exact absurd hj (by
            cases hp : (if i = 0 then route.getLast? else route.get? (i-1)) with
            | none => simp
            | some prev => cases prev <;> simp)
      | beginAt st0 =>
        rw [postAux_beginAt f i route st0 hi] at h
        refine ih (i+1) _ out h (by omega) ?_
        intro j dest frm ln stops tl hji hj
        rcases Nat.lt_or_ge j i with hlt | hge
        · exact hpre j dest frm ln stops tl hlt hj
        · rw [show j = i by omega] at hj
          rw [hi] at hj
          exact absurd hj (by simp)
      | arriveAt st0 =>
        rw [postAux_arriveAt f i route st0 hi] at h
        refine ih (i+1) _ out h (by omega) ?_
        intro j dest frm ln stops tl hji hj
        rcases Nat.lt_or_ge j i with hlt | hge
        · exact hpre j dest frm ln stops tl hlt hj
        · rw [show j = i by omega] at hj
          rw [hi] at hj
          exact absurd hj (by simp)

/-- C1 (amended): for every path accepted by `get_route_from_path`,
every `GoTo` action's recorded line is **a member of** the intersection
of the line sets of all its stops (the post-processing pass recomputes
it as the first element of that intersection).  The intersection need
not be a singleton, so it does not always yield *exactly* that line. -/
theorem C1_goTo_line_common (fuel : Nat) (path : List String) (r : List Action)
    (h : get_route_from_path fuel path = some (.ok r)) :
    ∀ dest frm ln stops tl, (Action.goTo dest frm ln stops tl) ∈ r →
      ∃ cls, common_line_between_stations stops = .ok cls ∧ ln ∈ cls := by
  unfold get_route_from_path at h
  cases hl : loopIter path fuel ⟨0, [], [], "", .CTL⟩ with
  | none => rw [hl] at h; exact absurd h (by simp)
  | some res =>
    rw [hl] at h
    cases res with
    | error e => exact absurd h (by simp)
    | ok compiled =>
      have hpost : postprocess compiled = .ok r := by
        injection h with h2
      unfold postprocess at hpost
      intro dest frm ln stops tl hmem
      obtain ⟨j, hj⟩ := List.mem_iff_get?.mp hmem
      exact postAux_goTo_commons compiled.length 0 compiled r hpost
        (by omega) (by intro j _ _ _ _ _ hj0; exact absurd hj0 (by omega))
        j dest frm ln stops tl hj

/-- Counterexample to C1 as stated: on the accepted path
`["korihasiph","hasiph"]` the returned `GoTo` records `CTL`, but the
intersection of the stops' line sets is `{CTL, CSL}` — two lines, not
exactly the recorded one. -/
theorem C1_cex :
    get_route_from_path 1 ["korihasiph", "hasiph"] = some (.ok
      [.beginAt "korihasiph",
       .goTo "hasiph" "korihasiph" .CTL ["korihasiph", "hasiph"] none,
       .arriveAt "hasiph"]) ∧
    common_line_between_stations ["korihasiph", "hasiph"] = .ok [.CTL, .CSL] ∧
    ¬ ([Line.CTL, Line.CSL] = [Line.CTL]) := by
  refine ⟨by rfl, by rfl, by decide⟩

/-- Witness of `C1_goTo_line_common` on a concrete accepted path. -/
theorem C1_witness :
    ∃ cls, common_line_between_stations ["hasiph", "korihasiph", "southbridge"] =
      .ok cls ∧ Line.CTL ∈ cls :=
  C1_goTo_line_common 1 ["hasiph", "korihasiph", "southbridge"]
    [.beginAt "hasiph",
     .goTo "southbridge" "hasiph" .CTL ["hasiph", "korihasiph", "southbridge"] none,
     .arriveAt "southbridge"] (by rfl)
    "southbridge" "hasiph" .CTL ["hasiph", "korihasiph", "southbridge"] none
    (by simp)

/-! ## C3/C4: helper lemmas on shapes and lists -/

theorem set_get?_self : ∀ (l : List Action) (i : Nat) (a : Action),
    l.get? i = some a → l.set i a = l := by
  intro l
  induction l with
  | nil => intro i a h; simp at h
  | cons x t ih =>
    intro i a h
    cases i with
    | zero => simp at h; simp [List.set, h]
    | succ n =>
      simp only [List.get?] at h
      simp [List.set, ih n a h]

/-- Replacing an element by one with the same skeleton preserves the
skeleton map. -/
theorem map_skel_set {r : List Action} {i : Nat} {a b : Action}
    (h : r.get? i = some a) (hsk : skel b = skel a) :
    (r.set i b).map skel = r.map skel := by
  rw [List.map_set, hsk]
  apply set_get?_self
  rw [List.get?_map, h]
  rfl

theorem tailShape_map_skel : ∀ t : List Action, tailShape (t.map skel) = tailShape t := by
  intro t
  induction t using tailShape.induct with
  | case1 => rfl
  | case2 d f l s tl a fl tll rest ih => simpa [tailShape, skel] using ih
  | case3 t h1 h2 =>
    cases t with
    | nil => simp at h1
    | cons x rest =>
      cases x with
      | goTo d f l s tl =>
        cases rest with
        | nil => simp [tailShape, skel]
        | cons y rest2 =>
          cases y with
          | transfer a b c => exact absurd rfl (h2 d f l s tl a b c rest2)
          | goTo _ _ _ _ _ => simp [tailShape, skel]
          | beginAt _ => simp [tailShape, skel]
          | arriveAt _ => simp [tailShape, skel]
      | transfer a b c => simp [tailShape, skel]
      | beginAt s => simp [tailShape, skel]
      | arriveAt s => simp [tailShape, skel]

theorem finTail_map_skel : ∀ t : List Action, finTail (t.map skel) = finTail t := by
  intro t
  induction t using finTail.induct with
  | case1 d f l s tl st => rfl
  | case2 d f l s tl a fl tll rest ih => simpa [finTail, skel] using ih
  | case3 t h1 h2 =>
    cases t with
    | nil => rfl
    | cons x rest =>
      cases x with
      | goTo d f l s tl =>
        cases rest with
        | nil => simp [finTail, skel]
        | cons y rest2 =>
          cases y with
          | transfer a b c => exact absurd rfl (h2 d f l s tl a b c rest2)
          | arriveAt st =>
            cases rest2 with
            | nil => exact absurd rfl (h1 d f l s tl st)
            | cons z rest3 => simp [finTail, skel]
          | goTo _ _ _ _ _ => simp [finTail, skel]
          | beginAt _ => simp [finTail, skel]
      | transfer a b c => simp [finTail, skel]
      | beginAt s => simp [finTail, skel]
      | arriveAt s => simp [finTail, skel]

theorem finShape_map_skel (r : List Action) : finShape (r.map skel) = finShape r := by
  cases r with
  | nil => rfl
  | cons x t =>
    cases x with
    | beginAt s => simpa [finShape, skel] using finTail_map_skel t
    | goTo _ _ _ _ _ => simp [finShape, skel]
    | transfer _ _ _ => simp [finShape, skel]
    | arriveAt _ => simp [finShape, skel]

theorem tailShape_eq_false {t : List Action} (h1 : ¬ (t = []))
    (h2 : ∀ d f l s tl a fl tll rest,
      ¬ (t = Action.goTo d f l s tl :: Action.transfer a fl tll :: rest)) :
    tailShape t = false := by
  cases t with
  | nil => exact absurd rfl h1
  | cons x rest =>
    cases x with
    | goTo d f l s tl =>
      cases rest with
      | nil => rfl
      | cons y rest2 =>
        cases y with
        | transfer a fl tll => exact absurd rfl (h2 d f l s tl a fl tll rest2)
        | goTo _ _ _ _ _ => rfl
        | beginAt _ => rfl
        | arriveAt _ => rfl
    | transfer _ _ _ => rfl
    | beginAt _ => rfl
    | arriveAt _ => rfl

theorem tailShape_append_GT {t : List Action} (h : tailShape t = true)
    (d f : String) (l : Line) (s : List String) (tl : Option Line)
    (a : String) (fl tll : Line) :
    tailShape (t ++ [.goTo d f l s tl, .transfer a fl tll]) = true := by
  induction t using tailShape.induct with
  | case1 => simp [tailShape]
  | case2 d2 f2 l2 s2 tl2 a2 fl2 tll2 rest ih =>
    simp only [tailShape] at h
    simpa [tailShape] using ih h
  | case3 t h1 h2 =>
    rw [tailShape_eq_false h1 h2] at h
    exact absurd h (by simp)

theorem tailShape_finTail_append {t : List Action} (h : tailShape t = true)
    (d f : String) (l : Line) (s : List String) (tl : Option Line) (st : String) :
    finTail (t ++ [.goTo d f l s tl, .arriveAt st]) = true := by
  induction t using tailShape.induct with
  | case1 => simp [finTail]
  | case2 d2 f2 l2 s2 tl2 a2 fl2 tll2 rest ih =>
    simp only [tailShape] at h
    simpa [finTail] using ih h
  | case3 t h1 h2 =>
    rw [tailShape_eq_false h1 h2] at h
    exact absurd h (by simp)

theorem tailShape_getLast {t : List Action} (h : tailShape t = true) :
    t = [] ∨ ∃ a b c, t.getLast? = some (.transfer a b c) := by
  induction t using tailShape.induct with
  | case1 => exact Or.inl rfl
  | case2 d2 f2 l2 s2 tl2 a2 fl2 tll2 rest ih =>
    simp only [tailShape] at h
    right
    rcases ih h with hnil | ⟨a, b, c, hl⟩
    · subst hnil
      exact ⟨a2, fl2, tll2, rfl⟩
    · refine ⟨a, b, c, ?_⟩
      rw [show (Action.goTo d2 f2 l2 s2 tl2 :: Action.transfer a2 fl2 tll2 :: rest)
          = [Action.goTo d2 f2 l2 s2 tl2, Action.transfer a2 fl2 tll2] ++ rest from rfl]
      rw [List.getLast?_append_of_ne_nil]
      · exact hl
      · intro hc; subst hc; simp at hl
  | case3 t h1 h2 =>
    rw [tailShape_eq_false h1 h2] at h
    exact absurd h (by simp)

theorem finTail_head_goTo {t : List Action} (h : finTail t = true) :
    ∃ d f l s tl rest, t = .goTo d f l s tl :: rest := by
  cases t with
  | nil => exact absurd h (by simp [finTail])
  | cons x rest =>
    cases x with
    | goTo d f l s tl => exact ⟨d, f, l, s, tl, rest, rfl⟩
    | transfer _ _ _ => exact absurd h (by simp [finTail])
    | beginAt _ => exact absurd h (by simp [finTail])
    | arriveAt _ => exact absurd h (by simp [finTail])

theorem finTail_eq_false {t : List Action}
    (h1 : ∀ d f l s tl st, ¬ (t = [Action.goTo d f l s tl, Action.arriveAt st]))
    (h2 : ∀ d f l s tl a fl tll rest,
      ¬ (t = Action.goTo d f l s tl :: Action.transfer a fl tll :: rest)) :
    finTail t = false := by
  cases t with
  | nil => rfl
  | cons x rest =>
    cases x with
    | goTo d f l s tl =>
      cases rest with
      | nil => rfl
      | cons y rest2 =>
        cases y with
        | transfer a fl tll => exact absurd rfl (h2 d f l s tl a fl tll rest2)
        | arriveAt st =>
          cases rest2 with
          | nil => exact absurd rfl (h1 d f l s tl st)
          | cons z rest3 => rfl
        | goTo _ _ _ _ _ => rfl
        | beginAt _ => rfl
    | transfer _ _ _ => rfl
    | beginAt _ => rfl
    | arriveAt _ => rfl

theorem finTail_getLast_arriveAt : ∀ t : List Action, finTail t = true →
    ∃ st, t.getLast? = some (.arriveAt st) := by
  intro t
  induction t using finTail.induct with
  | case1 d f l s tl st => intro _; exact ⟨st, rfl⟩
  | case2 d f l s tl a fl tll rest ih =>
    intro h
    simp only [finTail] at h
    obtain ⟨st, hst⟩ := ih h
    refine ⟨st, ?_⟩
    rw [show (Action.goTo d f l s tl :: Action.transfer a fl tll :: rest)
        = [Action.goTo d f l s tl, Action.transfer a fl tll] ++ rest from rfl]
    rw [List.getLast?_append_of_ne_nil]
    · exact hst
    · intro hc; subst hc; simp at hst
  | case3 t h1 h2 =>
    intro h
    rw [finTail_eq_false h1 h2] at h
    exact absurd h (by simp)

theorem finTail_noConsec : ∀ t : List Action, finTail t = true →
    noConsecutiveTransfers t = true := by
  intro t
  induction t using finTail.induct with
  | case1 d f l s tl st => intro _; rfl
  | case2 d f l s tl a fl tll rest ih =>
    intro h
    simp only [finTail] at h
    obtain ⟨d2, f2, l2, s2, tl2, rest2, hr⟩ := finTail_head_goTo h
    subst hr
    have := ih h
    simp only [noConsecutiveTransfers, Action.isTransfer, Action.isGoTo] at this ⊢
    simpa using this
  | case3 t h1 h2 =>
    intro h
    rw [finTail_eq_false h1 h2] at h
    exact absurd h (by simp)

theorem finShape_noConsec {r : List Action} (h : finShape r = true) :
    noConsecutiveTransfers r = true := by
  cases r with
  | nil => rfl
  | cons x t =>
    cases x with
    | beginAt s =>
      simp only [finShape] at h
      obtain ⟨d2, f2, l2, s2, tl2, rest2, hr⟩ := finTail_head_goTo h
      subst hr
      have := finTail_noConsec _ h
      simp only [noConsecutiveTransfers, Action.isTransfer] at this ⊢
      simpa using this
    | goTo _ _ _ _ _ => exact absurd h (by simp [finShape])
    | transfer _ _ _ => exact absurd h (by simp [finShape])
    | arriveAt _ => exact absurd h (by simp [finShape])

/-! ## Scan lemmas -/

theorem pyGet_some_of_bounds {l : List α} {i : Int} (h0 : 0 ≤ i)
    (h1 : i < (l.length : Int)) : ∃ a, pyGet l i = some a := by
  rw [pyGet_nonneg h0]
  have : i.toNat < l.length := by omega
  cases hg : l.get? i.toNat with
  | none => exact absurd hg (by rw [List.get?_eq_get this]; simp)
  | some a => exact ⟨a, rfl⟩

theorem pyGet_some_lt {l : List α} {i : Int} {a : α} (h0 : 0 ≤ i)
    (h : pyGet l i = some a) : i < (l.length : Int) := by
  rw [pyGet_nonneg h0] at h
  have := (List.get?_eq_some.mp h).1
  omega

theorem pyGet_none_ge {l : List α} {i : Int} (h0 : 0 ≤ i)
    (h : pyGet l i = none) : (l.length : Int) ≤ i := by
  rcases lt_or_ge i (l.length : Int) with hlt | hge
  · obtain ⟨a, ha⟩ := pyGet_some_of_bounds h0 hlt
    rw [ha] at h
    exact absurd h (by simp)
  · exact hge

/-- The components a successful `condEval` is built from. -/
theorem condEval_ok_parts {path : List String} {i : Int} {cur : Line} {b : Bool}
    (h : condEval path i cur = .ok b) :
    ∃ s1 l1 s2 l2, pyGet path i = some s1 ∧ stationLines s1 = some l1 ∧
      pyGet path (i+1) = some s2 ∧ stationLines s2 = some l2 ∧
      b = (has_common l1 l2 && (l1.contains cur || l2.contains cur)) := by
  unfold condEval at h
  split at h
  · exact absurd h (by simp)
  · rename_i s1 h1
    split at h
    · exact absurd h (by simp)
    · rename_i l1 h2
      split at h
      · exact absurd h (by simp)
      · rename_i s2 h3
        split at h
        · exact absurd h (by simp)
        · rename_i l2 h4
          refine ⟨s1, l1, s2, l2, h1, h2, h3, h4, ?_⟩
          injection h with h5
          exact h5.symm

/-- The possible shapes of a failing `condEval`. -/
theorem condEval_error_parts {path : List String} {i : Int} {cur : Line} {e : Err}
    (h : condEval path i cur = .error e) :
    (e = .indexError ∧ (pyGet path i = none ∨ pyGet path (i+1) = none)) ∨
    e = .keyError := by
  unfold condEval at h
  split at h
  · rename_i h1
    injection h with h2
    exact Or.inl ⟨h2.symm, Or.inl h1⟩
  · rename_i s1 h1
    split at h
    · rename_i h2
      injection h with h3
      exact Or.inr h3.symm
    · rename_i l1 h2
      split at h
      · rename_i h3
        injection h with h4
        exact Or.inl ⟨h4.symm, Or.inr h3⟩
      · rename_i s2 h3
        split at h
        · rename_i h4
          injection h with h5
          exact Or.inr h5.symm
        · rename_i l2 h4
          exact absurd h (by simp)

theorem scanAux_indexError {path : List String} {cur : Line} :
    ∀ k (i : Int) buf j b, 0 ≤ i → i ≤ (path.length : Int) - 1 →
    scanAux path cur k i buf = .res j b (some .indexError) →
    j = (path.length : Int) - 1 := by
  intro k
  induction k with
  | zero =>
    intro i buf j b _ _ h
    exact absurd h (by simp [scanAux])
  | succ f ih =>
    intro i buf j b h0 h1 h
    unfold scanAux at h
    split at h
    · rename_i e hc
      injection h with h2 h3 h4
      subst h2
      rcases condEval_error_parts hc with ⟨he, hnone⟩ | he
      · rcases hnone with hn | hn
        · obtain ⟨a, ha⟩ := pyGet_some_of_bounds (l := path) h0 (by omega)
          rw [ha] at hn
          exact absurd hn (by simp)
        · have h9 : (path.length : Int) ≤ i + 1 :=
            pyGet_none_ge (l := path) (i := i + 1) (by omega) hn
          omega
      · subst he
        injection h4 with h5
        exact absurd h5 (by simp)
    · injection h with h2 h3 h4
      exact absurd h4 (by simp)
    · rename_i hc
      split at h
      · rename_i hp
        obtain ⟨s1, l1, s2, l2, hp1, _, _, _, _⟩ := condEval_ok_parts hc
        rw [hp1] at hp
        exact absurd hp (by simp)
      · rename_i s hp
        obtain ⟨s1, l1, s2, l2, hp1, _, hp3, _, _⟩ := condEval_ok_parts hc
        have h2 : i + 1 < (path.length : Int) := pyGet_some_lt (by omega) hp3
        exact ih (i+1) (buf ++ [s]) j b (by omega) (by omega) h

theorem scanAux_ok_false {path : List String} {cur : Line} :
    ∀ k (i : Int) buf j b,
    scanAux path cur k i buf = .res j b none →
    condEval path j cur = .ok false ∧ i ≤ j ∧
      (i < j → condEval path (j-1) cur = .ok true) := by
  intro k
  induction k with
  | zero =>
    intro i buf j b h
    exact absurd h (by simp [scanAux])
  | succ f ih =>
    intro i buf j b h
    unfold scanAux at h
    split at h
    · rename_i e hc
      injection h with h2 h3 h4
      exact absurd h4 (by simp)
    · rename_i hc
      injection h with h2 h3 h4
      subst h2
      exact ⟨hc, le_refl _, fun hlt => absurd hlt (by omega)⟩
    · rename_i hc
      split at h
      · injection h with h2 h3 h4
        exact absurd h4 (by simp)
      · rename_i s hp
        obtain ⟨hfalse, hle, htrue⟩ := ih (i+1) (buf ++ [s]) j b h
        refine ⟨hfalse, by omega, fun hlt => ?_⟩
        rcases lt_or_ge (i+1) j with h2 | h2
        · exact htrue h2
        · have hj : j = i + 1 := by omega
          subst hj
          simpa using hc

theorem scanAux_error_kind {path : List String} {cur : Line} :
    ∀ k (i : Int) buf j b e,
    scanAux path cur k i buf = .res j b (some e) →
    e = .indexError ∨ e = .keyError := by
  intro k
  induction k with
  | zero =>
    intro i buf j b e h
    exact absurd h (by simp [scanAux])
  | succ f ih =>
    intro i buf j b e h
    unfold scanAux at h
    split at h
    · rename_i e2 hc
      injection h with h2 h3 h4
      injection h4 with h5
      subst h5
      rcases condEval_error_parts hc with ⟨he, _⟩ | he
      · exact Or.inl he
      · exact Or.inr he
    · injection h with h2 h3 h4
      exact absurd h4 (by simp)
    · rename_i hc
      split at h
      · injection h with h2 h3 h4
        injection h4 with h5
        exact Or.inl h5.symm
      · rename_i s hp
        exact ih (i+1) (buf ++ [s]) j b e h

theorem scanAux_neg {path : List String} {cur : Line} :
    ∀ k (i : Int) buf, i ≤ 0 → 2 ≤ path.length →
    (∀ c', condEval path 0 c' ≠ .ok true) →
    scanAux path cur k i buf = .fuelOut ∨
    (∃ j b e, scanAux path cur k i buf = .res j b e ∧ j ≤ 0 ∧
      (e = some .indexError → pyGet path j = none)) := by
  intro k
  induction k with
  | zero => intro i buf _ _ _; exact Or.inl rfl
  | succ f ih =>
    intro i buf h0 hlen hSA
    cases hc : condEval path i cur with
    | error e =>
      right
      refine ⟨i, buf, some e, ?_, h0, fun he => ?_⟩
      · conv_lhs => unfold scanAux; rw [hc]
      · injection he with he2
        subst he2
        rcases condEval_error_parts hc with ⟨_, hnone⟩ | he3
        · rcases hnone with hn | hn
          · exact hn
          · cases hp : pyGet path i with
            | none => rfl
            | some a =>
              exfalso
              rcases lt_or_ge (i+1) 0 with hneg2 | hpos2
              · unfold pyGet at hn
                rw [if_neg (by omega)] at hn
                by_cases hb : 0 ≤ i + 1 + (path.length : Int)
                · rw [if_pos hb] at hn
                  have h9 := List.get?_eq_none.mp hn
                  have h9i : (path.length : Int) ≤ ((i + 1 + (path.length : Int)).toNat : Int) :=
                    Int.ofNat_le.mpr h9
                  rw [Int.toNat_of_nonneg hb] at h9i
                  omega
                · rw [if_neg hb] at hn
                  unfold pyGet at hp
                  rw [if_neg (show ¬ (0 ≤ i) by omega),
                      if_neg (show ¬ (0 ≤ i + (path.length : Int)) by omega)] at hp
                  exact absurd hp (by simp)
              · unfold pyGet at hn
                rw [if_pos (by omega)] at hn
                have h10 := List.get?_eq_none.mp hn
                have h11 : (((i+1).toNat : Int)) = i + 1 := Int.toNat_of_nonneg hpos2
                have h12 : (path.length : Int) ≤ ((i+1).toNat : Int) := Int.ofNat_le.mpr h10
                omega
        · exact absurd he3 (by simp)
    | ok b =>
      cases b with
      | false =>
        right
        refine ⟨i, buf, none, ?_, h0, by simp⟩
        conv_lhs => unfold scanAux; rw [hc]
      | true =>
        have hi0 : i < 0 := by
          rcases lt_or_ge i 0 with h2 | h2
          · exact h2
          · have h3 : i = 0 := by omega
            subst h3
            exact absurd hc (hSA cur)
        cases hp : pyGet path i with
        | none =>
          right
          refine ⟨i, buf, some .indexError, ?_, h0, fun _ => hp⟩
          conv_lhs => unfold scanAux; rw [hc, hp]
        | some s =>
          have hstep : scanAux path cur (f+1) i buf =
              scanAux path cur f (i+1) (buf ++ [s]) := by
            conv_lhs => unfold scanAux; rw [hc, hp]
          rw [hstep]
          exact ih (i+1) (buf ++ [s]) (by omega) hlen hSA

/-! ## The loop invariant -/

/-- The shape of the route list during compilation: empty, or
`BeginAt(path[0])` followed by alternating `(GoTo, Transfer)` pairs. -/
def routeShape (path : List String) (r : List Action) : Prop :=
  r = [] ∨ ∃ p0 t, pyGet path 0 = some p0 ∧ r = .beginAt p0 :: t ∧ tailShape t = true

/-- The invariant of the regular (index ≥ 0) states of the compile loop. -/
def GoodSt (path : List String) (s : St) : Prop :=
  0 ≤ s.i ∧ s.i ≤ (path.length : Int) - 1 ∧
  (s.i = 0 ↔ s.route = []) ∧
  routeShape path s.route ∧
  (1 ≤ s.i →
    (∃ pst prevLs, pyGet path (s.i - 1) = some pst ∧
      stationLines pst = some prevLs ∧ 1 < prevLs.length ∧
      prevLs.head? = some s.cur) ∨
    condEval path s.i s.cur = .ok true)

/-- States in the non-terminating "negative index" orbit: the lookahead
at index 0 can never succeed, so the loop oscillates at or below 0. -/
def BadA (path : List String) (s : St) : Prop :=
  2 ≤ path.length ∧ (∀ c, condEval path 0 c ≠ .ok true) ∧
  s.i ≤ 0 ∧ (s.i = 0 → s.route ≠ [])

/-- States in the non-terminating "re-visit index 0" loop: the scan
climbs from 0 to 1 and falls back, with a single-line first station. -/
def BadB (path : List String) (s : St) : Prop :=
  3 ≤ path.length ∧ s.i = 0 ∧ s.route ≠ [] ∧
  ∃ p0 l, pyGet path 0 = some p0 ∧ stationLines p0 = some [l] ∧
    condEval path 0 l = .ok true ∧ condEval path 1 l = .ok false

def Inv (path : List String) (s : St) : Prop :=
  GoodSt path s ∨ BadA path s ∨ BadB path s

/-- What the compile loop guarantees about a route it returns. -/
def GoodOut (path : List String) (out : List Action) : Prop :=
  ∃ p0 plast, pyGet path 0 = some p0 ∧
    pyGet path ((path.length : Int) - 1) = some plast ∧
    out.head? = some (.beginAt p0) ∧
    out.getLast? = some (.arriveAt plast) ∧
    finShape out = true

theorem pyGet_neg_some {l : List α} {i : Int} (hneg : i < 0)
    (hge : 0 ≤ i + (l.length : Int)) : ∃ a, pyGet l i = some a := by
  unfold pyGet
  rw [if_neg (by omega), if_pos hge]
  have h1 : ((i + (l.length : Int)).toNat : Int) = i + l.length :=
    Int.toNat_of_nonneg hge
  have h2 : (i + (l.length : Int)).toNat < l.length := by omega
  cases hg : l.get? (i + (l.length : Int)).toNat with
  | none =>
    have := List.get?_eq_none.mp hg
    omega
  | some a => exact ⟨a, rfl⟩

/-! ## Equation lemmas for the loop body pieces -/

section BodyEquations

variable {path : List String} {i0 i2 : Int} {route1 : List Action}
variable {buf0 buf2 : List String} {bg1 : String} {cur1 : Line}

theorem step4_pyGet_none (h : pyGet path i2 = none) :
    step4 path i2 route1 buf2 bg1 cur1 = .inl (some (.error .indexError)) := by
  simp only [step4, h]

theorem step4_lines_none {st : String} (hp : pyGet path i2 = some st)
    (hl : stationLines st = none) :
    step4 path i2 route1 buf2 bg1 cur1 = .inl (some (.error .keyError)) := by
  simp only [step4, hp, hl]

theorem step4_single {st : String} {ls : List Line} (hp : pyGet path i2 = some st)
    (hl : stationLines st = some ls) (hone : ¬ 1 < ls.length) :
    step4 path i2 route1 buf2 bg1 cur1 = .inr ⟨i2, route1, buf2, bg1, cur1⟩ := by
  simp only [step4, hp, hl]
  rw [if_neg hone]

theorem step4_multi_nxt_none {st : String} {l : Line} {ls2 : List Line}
    (hp : pyGet path i2 = some st) (hl : stationLines st = some (l :: ls2))
    (hone : 1 < (l :: ls2).length) (hn : pyGet path (i2 + 1) = none) :
    step4 path i2 route1 buf2 bg1 cur1 = .inl (some (.error .indexError)) := by
  simp only [step4, hp, hl]
  rw [if_pos hone]
  simp only [hn]

theorem step4_multi_nls_none {st nxt : String} {l : Line} {ls2 : List Line}
    (hp : pyGet path i2 = some st) (hl : stationLines st = some (l :: ls2))
    (hone : 1 < (l :: ls2).length) (hn : pyGet path (i2 + 1) = some nxt)
    (hnl : stationLines nxt = none) :
    step4 path i2 route1 buf2 bg1 cur1 = .inl (some (.error .keyError)) := by
  simp only [step4, hp, hl]
  rw [if_pos hone]
  simp only [hn, hnl]

theorem step4_multi_head_none {st nxt : String} {l : Line} {ls2 nls : List Line}
    (hp : pyGet path i2 = some st) (hl : stationLines st = some (l :: ls2))
    (hone : 1 < (l :: ls2).length) (hn : pyGet path (i2 + 1) = some nxt)
    (hnl : stationLines nxt = some nls) (hhd : nls.head? = none) :
    step4 path i2 route1 buf2 bg1 cur1 = .inl (some (.error .indexError)) := by
  simp only [step4, hp, hl]
  rw [if_pos hone]
  simp only [hn, hnl, hhd]

theorem step4_multi {st nxt : String} {l nl0 : Line} {ls2 nls : List Line}
    (hp : pyGet path i2 = some st) (hl : stationLines st = some (l :: ls2))
    (hone : 1 < (l :: ls2).length) (hn : pyGet path (i2 + 1) = some nxt)
    (hnl : stationLines nxt = some nls) (hhd : nls.head? = some nl0) :
    step4 path i2 route1 buf2 bg1 cur1 =
      .inr ⟨i2 + 1, (route1 ++ [.goTo st bg1 l buf2 none]) ++ [.transfer st nl0 l],
        [st, nxt], st, l⟩ := by
  simp only [step4, hp, hl]
  rw [if_pos hone]
  simp only [hn, hnl, hhd]

theorem handlerPart_getLast_none (h : route1.getLast? = none) :
    handlerPart path i2 route1 buf2 bg1 cur1 = .inl (some (.error .indexError)) := by
  simp only [handlerPart, h]

theorem handlerPart_goTo {last : Action} (h : route1.getLast? = some last)
    (hgt : last.isGoTo = true) :
    handlerPart path i2 route1 buf2 bg1 cur1 = step4 path i2 route1 buf2 bg1 cur1 := by
  simp only [handlerPart, h]
  rw [if_pos hgt]

theorem handlerPart_commons_error {last : Action} {e : Err}
    (h : route1.getLast? = some last) (hgt : last.isGoTo = false)
    (hc : common_line_between_stations buf2 = .error e) :
    handlerPart path i2 route1 buf2 bg1 cur1 = .inl (some (.error e)) := by
  simp only [handlerPart, h]
  rw [if_neg (by rw [hgt]; simp)]
  simp only [hc]

theorem handlerPart_head_none {last : Action} {commons : List Line}
    (h : route1.getLast? = some last) (hgt : last.isGoTo = false)
    (hc : common_line_between_stations buf2 = .ok commons) (hhd : commons.head? = none) :
    handlerPart path i2 route1 buf2 bg1 cur1 = .inl (some (.error .indexError)) := by
  simp only [handlerPart, h]
  rw [if_neg (by rw [hgt]; simp)]
  simp only [hc, hhd]

theorem handlerPart_pyGet_none {last : Action} {commons : List Line} {cl : Line}
    (h : route1.getLast? = some last) (hgt : last.isGoTo = false)
    (hc : common_line_between_stations buf2 = .ok commons)
    (hhd : commons.head? = some cl) (hpl : pyGet path i2 = none) :
    handlerPart path i2 route1 buf2 bg1 cur1 = .inl (some (.error .indexError)) := by
  simp only [handlerPart, h]
  rw [if_neg (by rw [hgt]; simp)]
  simp only [hc, hhd, hpl]

theorem handlerPart_ok {last : Action} {commons : List Line} {cl : Line} {plast : String}
    (h : route1.getLast? = some last) (hgt : last.isGoTo = false)
    (hc : common_line_between_stations buf2 = .ok commons)
    (hhd : commons.head? = some cl) (hpl : pyGet path i2 = some plast) :
    handlerPart path i2 route1 buf2 bg1 cur1 = .inl (some (.ok
      ((match route1.getLast? with
        | some (.transfer a fl _) => route1.set (route1.length - 1) (.transfer a fl cl)
        | _ => route1) ++
       [.goTo plast bg1 cl (buf2 ++ [plast]) none, .arriveAt plast]))) := by
  simp only [handlerPart, h]
  rw [if_neg (by rw [hgt]; simp)]
  simp only [hc, hhd, hpl]

theorem runScanPart_fuelOut
    (h : scanAux path cur1 (2 * path.length + 2) i0 buf0 = .fuelOut) :
    runScanPart path i0 route1 buf0 bg1 cur1 = .inl none := by
  simp only [runScanPart, h]

theorem runScanPart_keyError {i' : Int} {buf' : List String}
    (h : scanAux path cur1 (2 * path.length + 2) i0 buf0 = .res i' buf' (some .keyError)) :
    runScanPart path i0 route1 buf0 bg1 cur1 = .inl (some (.error .keyError)) := by
  simp only [runScanPart, h]

theorem runScanPart_valueError {i' : Int} {buf' : List String}
    (h : scanAux path cur1 (2 * path.length + 2) i0 buf0 = .res i' buf' (some .valueError)) :
    runScanPart path i0 route1 buf0 bg1 cur1 = .inl (some (.error .valueError)) := by
  simp only [runScanPart, h]

theorem runScanPart_exc_none {i' : Int} {buf' : List String}
    (h : scanAux path cur1 (2 * path.length + 2) i0 buf0 = .res i' buf' none) :
    runScanPart path i0 route1 buf0 bg1 cur1 = step4 path (i' - 1) route1 buf' bg1 cur1 := by
  simp only [runScanPart, h]

theorem runScanPart_idx_eq {i' : Int} {buf' : List String}
    (h : scanAux path cur1 (2 * path.length + 2) i0 buf0 = .res i' buf' (some .indexError))
    (heq : i' = (path.length : Int) - 1) :
    runScanPart path i0 route1 buf0 bg1 cur1 = handlerPart path i' route1 buf' bg1 cur1 := by
  simp only [runScanPart, h]
  rw [if_pos heq]

theorem runScanPart_idx_ne {i' : Int} {buf' : List String}
    (h : scanAux path cur1 (2 * path.length + 2) i0 buf0 = .res i' buf' (some .indexError))
    (hne : ¬ (i' = (path.length : Int) - 1)) :
    runScanPart path i0 route1 buf0 bg1 cur1 = step4 path i' route1 buf' bg1 cur1 := by
  simp only [runScanPart, h]
  rw [if_neg hne]

end BodyEquations

/-! ## Outcome predicates -/

/-- Every way this body outcome can continue respects the invariant. -/
def GoodOutcome (path : List String)
    (o : Sum (Option (Except Err (List Action))) St) : Prop :=
  (∀ r, o = .inl (some (.ok r)) → GoodOut path r) ∧
  (∀ s', o = .inr s' → Inv path s')

theorem goodOutcome_none : GoodOutcome path (.inl none) :=
  ⟨fun r hr => by simp at hr, fun s' hs' => by simp at hs'⟩

theorem goodOutcome_error (e : Err) : GoodOutcome path (.inl (some (.error e))) :=
  ⟨fun r hr => by simp at hr, fun s' hs' => by simp at hs'⟩

theorem goodOutcome_ok {out : List Action} (h : GoodOut path out) :
    GoodOutcome path (.inl (some (.ok out))) :=
  ⟨fun r hr => by
    have h2 : out = r := by
      injection hr with h3
      injection h3 with h4
      injection h4
    exact h2 ▸ h,
   fun s' hs' => by simp at hs'⟩

theorem goodOutcome_inr {s' : St} (h : Inv path s') : GoodOutcome path (.inr s') :=
  ⟨fun r hr => by simp at hr, fun s2 hs2 => by
    injection hs2 with h3
    exact h3 ▸ h⟩

/-- A body outcome of a state that can never produce a normal return. -/
def BadAOutcome (path : List String)
    (o : Sum (Option (Except Err (List Action))) St) : Prop :=
  (∀ r, o ≠ .inl (some (.ok r))) ∧ (∀ s', o = .inr s' → BadA path s')

theorem badAOutcome_none : BadAOutcome path (.inl none) :=
  ⟨fun r hr => by simp at hr, fun s' hs' => by simp at hs'⟩

theorem badAOutcome_error (e : Err) : BadAOutcome path (.inl (some (.error e))) :=
  ⟨fun r hr => by simp at hr, fun s' hs' => by simp at hs'⟩

theorem badAOutcome_inr {s' : St} (h : BadA path s') : BadAOutcome path (.inr s') :=
  ⟨fun r hr => by simp at hr, fun s2 hs2 => by
    injection hs2 with h3
    exact h3 ▸ h⟩

/-- A cons-list whose head is known is nonempty, getLast? through a cons. -/
theorem getLast?_cons_of_ne_nil {x : Action} {t : List Action} (h : t ≠ []) :
    (x :: t).getLast? = t.getLast? := by
  cases t with
  | nil => exact absurd rfl h
  | cons y t2 => exact List.getLast?_cons_cons

/-- The body of the loop preserves the invariant from a regular state. -/
theorem runScanPart_good {path : List String} {i0 : Int} {route1 : List Action}
    {buf0 : List String} {bg1 : String} {cur1 : Line}
    (hi0 : 0 ≤ i0) (hile : i0 ≤ (path.length : Int) - 1)
    (hshape : ∃ p0 t, pyGet path 0 = some p0 ∧ route1 = .beginAt p0 :: t ∧
      tailShape t = true)
    (hCL : 1 ≤ i0 →
      (∃ pst prevLs, pyGet path (i0 - 1) = some pst ∧
        stationLines pst = some prevLs ∧ 1 < prevLs.length ∧
        prevLs.head? = some cur1) ∨
      condEval path i0 cur1 = .ok true)
    (hcur0 : i0 = 0 → ∃ q0 ls0, pyGet path 0 = some q0 ∧
      stationLines q0 = some ls0 ∧ ls0.head? = some cur1) :
    GoodOutcome path (runScanPart path i0 route1 buf0 bg1 cur1) := by
  obtain ⟨p0, t, hp0, hroute1, ht⟩ := hshape
  cases hscan : scanAux path cur1 (2 * path.length + 2) i0 buf0 with
  | fuelOut => rw [runScanPart_fuelOut hscan]; exact goodOutcome_none
  | res i' buf' exc =>
    cases exc with
    | some e =>
      cases e with
      | keyError => rw [runScanPart_keyError hscan]; exact goodOutcome_error _
      | valueError => rw [runScanPart_valueError hscan]; exact goodOutcome_error _
      | indexError =>
        have hi'eq := scanAux_indexError _ i0 buf0 i' _ hi0 hile hscan
        rw [runScanPart_idx_eq hscan hi'eq]
        cases hlast : route1.getLast? with
        | none => rw [handlerPart_getLast_none hlast]; exact goodOutcome_error _
        | some last =>
          have hgt : last.isGoTo = false := by
            rw [hroute1] at hlast
            rcases tailShape_getLast ht with htnil | ⟨a, b, c, hts⟩
            · subst htnil
              simp only [List.getLast?_singleton] at hlast
              have h2 : Action.beginAt p0 = last := Option.some.inj hlast
              rw [← h2]
              rfl
            · have htne : t ≠ [] := by
                intro hc
                subst hc
                simp at hts
              rw [getLast?_cons_of_ne_nil htne, hts] at hlast
              have h2 : Action.transfer a b c = last := Option.some.inj hlast
              rw [← h2]
              rfl
          cases hcomm : common_line_between_stations buf' with
          | error e2 =>
            rw [handlerPart_commons_error hlast hgt hcomm]
            exact goodOutcome_error _
          | ok commons =>
            cases hhd : commons.head? with
            | none =>
              rw [handlerPart_head_none hlast hgt hcomm hhd]
              exact goodOutcome_error _
            | some cl =>
              cases hpl : pyGet path i' with
              | none =>
                rw [handlerPart_pyGet_none hlast hgt hcomm hhd hpl]
                exact goodOutcome_error _
              | some plast =>
                rw [handlerPart_ok hlast hgt hcomm hhd hpl]
                apply goodOutcome_ok
                have hskel :
                    ((match route1.getLast? with
                      | some (.transfer a fl _) =>
                          route1.set (route1.length - 1) (.transfer a fl cl)
                      | _ => route1) : List Action).map skel = route1.map skel := by
                  rw [hlast]
                  cases last with
                  | transfer a fl tl =>
                    simp only []
                    apply map_skel_set
                    · rw [← List.getLast?_eq_get?]
                      exact hlast
                    · rfl
                  | goTo _ _ _ _ _ => rfl
                  | beginAt _ => rfl
                  | arriveAt _ => rfl
                set route2 : List Action :=
                  (match route1.getLast? with
                   | some (.transfer a fl _) =>
                       route1.set (route1.length - 1) (.transfer a fl cl)
                   | _ => route1) with hroute2
                have hhead2 : route2.head? = some (.beginAt p0) := by
                  have h2 : (route2.map skel).head? = (route1.map skel).head? := by
                    rw [hskel]
                  rw [List.head?_map, List.head?_map, hroute1] at h2
                  cases hh2 : route2.head? with
                  | none => rw [hh2] at h2; simp at h2
                  | some a =>
                    rw [hh2] at h2
                    simp only [Option.map_some, List.head?_cons] at h2
                    have h3 : skel a = skel (Action.beginAt p0) := Option.some.inj h2
                    cases a with
                    | beginAt s =>
                      simp only [skel] at h3
                      rw [h3]
                    | goTo d f l s tl => exact absurd h3 (by simp [skel])
                    | transfer a2 b2 c2 => exact absurd h3 (by simp [skel])
                    | arriveAt s => exact absurd h3 (by simp [skel])
                refine ⟨p0, plast, hp0, ?_, ?_, ?_, ?_⟩
                · rw [← hi'eq]; exact hpl
                · cases hr2 : route2 with
                  | nil => rw [hr2] at hhead2; simp at hhead2
                  | cons x t2 =>
                    rw [hr2] at hhead2
                    simp only [List.head?_cons] at hhead2
                    have h3 : x = Action.beginAt p0 := Option.some.inj hhead2
                    rw [h3]
                    rfl
                · rw [show route2 ++
                      [Action.goTo plast bg1 cl (buf' ++ [plast]) none,
                       Action.arriveAt plast] =
                      (route2 ++ [Action.goTo plast bg1 cl (buf' ++ [plast]) none]) ++
                      [Action.arriveAt plast] by simp]
                  exact List.getLast?_concat _
                · rw [← finShape_map_skel]
                  rw [List.map_append, hskel, hroute1]
                  show finShape (Action.beginAt p0 ::
                    (t.map skel ++ [skel (Action.goTo plast bg1 cl (buf' ++ [plast]) none),
                      skel (Action.arriveAt plast)])) = true
                  simp only [finShape, skel]
                  apply tailShape_finTail_append
                  rw [tailShape_map_skel]
                  exact ht
    | none =>
      rw [runScanPart_exc_none hscan]
      obtain ⟨hcf, hle, hclimb⟩ := scanAux_ok_false _ i0 buf0 i' buf' hscan
      obtain ⟨s1, l1, s2, l2, hs1, hl1, hs2, hl2, hb⟩ := condEval_ok_parts hcf
      have hi'lt : i' + 1 < (path.length : Int) := pyGet_some_lt (by omega) hs2
      rcases eq_or_lt_of_le (show (0:Int) ≤ i' by omega) with hz | hpos
      · -- i' = 0 : dip to index -1
        have hi'0 : i' = 0 := hz.symm
        have hi00 : i0 = 0 := by omega
        obtain ⟨q0, ls0, hq0, hls0, hhd0⟩ := hcur0 hi00
        rw [hi'0] at hcf hs1 hs2
        have hsq : s1 = q0 := Option.some.inj (hs1.symm.trans hq0)
        have hlq : l1 = ls0 := by
          rw [hsq] at hl1
          exact Option.some.inj (hl1.symm.trans hls0)
        have hcontains : l1.contains cur1 = true := by
          have hmem := List.mem_of_mem_head? hhd0
          rw [hlq]
          exact List.elem_eq_true_of_mem hmem
        have hnocommon : has_common l1 l2 = false := by
          rw [hcontains] at hb
          cases hhc : has_common l1 l2 with
          | false => rfl
          | true => rw [hhc] at hb; simp at hb
        have hSA : ∀ c, condEval path 0 c ≠ .ok true := by
          intro c hc
          obtain ⟨u1, m1, u2, m2, hu1, hm1, hu2, hm2, hbc⟩ := condEval_ok_parts hc
          have h2 : u1 = s1 := Option.some.inj (hu1.symm.trans hs1)
          have h3 : m1 = l1 := by
            rw [h2] at hm1
            exact Option.some.inj (hm1.symm.trans hl1)
          have h4 : u2 = s2 := Option.some.inj (hu2.symm.trans hs2)
          have h5 : m2 = l2 := by
            rw [h4] at hm2
            exact Option.some.inj (hm2.symm.trans hl2)
          rw [h3, h5, hnocommon] at hbc
          simp at hbc
        have hlen2 : 2 ≤ path.length := by omega
        have hneg : i' - 1 < 0 := by omega
        obtain ⟨stm, hstm⟩ := pyGet_neg_some (l := path) hneg (by omega)
        cases hlm : stationLines stm with
        | none =>
          rw [step4_lines_none hstm hlm]
          exact goodOutcome_error _
        | some ls =>
          by_cases hone : 1 < ls.length
          · cases ls with
            | nil => simp at hone
            | cons l' ls2 =>
              cases hnxt : pyGet path (i' - 1 + 1) with
              | none =>
                rw [step4_multi_nxt_none hstm hlm hone hnxt]
                exact goodOutcome_error _
              | some nxt =>
                cases hnls : stationLines nxt with
                | none =>
                  rw [step4_multi_nls_none hstm hlm hone hnxt hnls]
                  exact goodOutcome_error _
                | some nls =>
                  cases hnhd : nls.head? with
                  | none =>
                    rw [step4_multi_head_none hstm hlm hone hnxt hnls hnhd]
                    exact goodOutcome_error _
                  | some nl0 =>
                    rw [step4_multi hstm hlm hone hnxt hnls hnhd]
                    apply goodOutcome_inr
                    right; left
                    refine ⟨hlen2, hSA, ?_, fun _ => by simp⟩
                    show i' - 1 + 1 ≤ 0
                    omega
          · rw [step4_single hstm hlm hone]
            apply goodOutcome_inr
            right; left
            refine ⟨hlen2, hSA, ?_, ?_⟩
            · show i' - 1 ≤ 0
              omega
            · intro h0'
              have h1' : i' - 1 = 0 := h0'
              exact absurd h1' (by omega)
      · -- 1 ≤ i'
        have hi2ge : (0:Int) ≤ i' - 1 := by omega
        obtain ⟨st, hst⟩ := pyGet_some_of_bounds (l := path) hi2ge (by omega)
        cases hlm : stationLines st with
        | none =>
          rw [step4_lines_none hst hlm]
          exact goodOutcome_error _
        | some ls =>
          by_cases hone : 1 < ls.length
          · cases ls with
            | nil => simp at hone
            | cons l' ls2 =>
              have hnxt : pyGet path (i' - 1 + 1) = some s1 := by
                rw [show i' - 1 + 1 = i' by omega]
                exact hs1
              cases hnhd : l1.head? with
              | none =>
                rw [step4_multi_head_none hst hlm hone hnxt hl1 hnhd]
                exact goodOutcome_error _
              | some nl0 =>
                rw [step4_multi hst hlm hone hnxt hl1 hnhd]
                apply goodOutcome_inr
                left
                refine ⟨?_, ?_, ?_, ?_, ?_⟩
                · show (0:Int) ≤ i' - 1 + 1
                  omega
                · show i' - 1 + 1 ≤ (path.length : Int) - 1
                  omega
                · constructor
                  · intro h2
                    have h3 : i' - 1 + 1 = 0 := h2
                    exact absurd h3 (by omega)
                  · intro h2
                    have h3 : (route1 ++ [Action.goTo st bg1 l' buf' none]) ++
                        [Action.transfer st nl0 l'] = [] := h2
                    simp at h3
                · right
                  refine ⟨p0, (t ++ [Action.goTo st bg1 l' buf' none]) ++
                      [Action.transfer st nl0 l'], hp0, ?_, ?_⟩
                  · show (route1 ++ [Action.goTo st bg1 l' buf' none]) ++
                        [Action.transfer st nl0 l'] =
                      Action.beginAt p0 :: ((t ++ [Action.goTo st bg1 l' buf' none]) ++
                        [Action.transfer st nl0 l'])
                    rw [hroute1]
                    simp
                  · rw [show (t ++ [Action.goTo st bg1 l' buf' none]) ++
                        [Action.transfer st nl0 l'] =
                        t ++ [Action.goTo st bg1 l' buf' none,
                          Action.transfer st nl0 l'] by simp]
                    exact tailShape_append_GT ht st bg1 l' buf' none st nl0 l'
                · intro _
                  left
                  refine ⟨st, l' :: ls2, ?_, hlm, hone, rfl⟩
                  show pyGet path (i' - 1 + 1 - 1) = some st
                  rw [show i' - 1 + 1 - 1 = i' - 1 by omega]
                  exact hst
          · rw [step4_single hst hlm hone]
            apply goodOutcome_inr
            rcases lt_or_eq_of_le hle with hclimbed | hsame
            · have hct := hclimb hclimbed
              rcases eq_or_lt_of_le (show (1:Int) ≤ i' by omega) with h1eq | h1lt
              · -- i' = 1 : successor is the BadB revisit state
                have hi'1 : i' = 1 := h1eq.symm
                have hi00 : i0 = 0 := by omega
                obtain ⟨q0, ls0, hq0, hls0, hhd0⟩ := hcur0 hi00
                have hst0 : pyGet path 0 = some st := by
                  rw [show (0:Int) = i' - 1 by omega]
                  exact hst
                have hstq : q0 = st := Option.some.inj (hq0.symm.trans hst0)
                rw [hstq] at hls0
                have hlsq : ls = ls0 := Option.some.inj (hlm.symm.trans hls0)
                have hhdls : ls.head? = some cur1 := by rw [hlsq]; exact hhd0
                have hls1 : ls = [cur1] := by
                  cases ls with
                  | nil => simp at hhdls
                  | cons a tail =>
                    simp only [List.head?_cons] at hhdls
                    have h2 : a = cur1 := Option.some.inj hhdls
                    subst h2
                    cases tail with
                    | nil => rfl
                    | cons b tail2 => simp at hone
                have hc0 : condEval path 0 cur1 = .ok true := by
                  rw [show (0:Int) = i' - 1 by omega]
                  exact hct
                have hc1 : condEval path 1 cur1 = .ok false := by
                  rw [show (1:Int) = i' by omega]
                  exact hcf
                right; right
                refine ⟨by omega, ?_, ?_, st, cur1, hst0, ?_, hc0, hc1⟩
                · show i' - 1 = 0
                  omega
                · show route1 ≠ []
                  rw [hroute1]
                  simp
                · rw [← hls1]
                  exact hlm
              · -- 2 ≤ i' : stay in the regular zone
                left
                refine ⟨?_, ?_, ?_, ?_, ?_⟩
                · show (0:Int) ≤ i' - 1
                  omega
                · show i' - 1 ≤ (path.length : Int) - 1
                  omega
                · constructor
                  · intro h2
                    have h3 : i' - 1 = 0 := h2
                    exact absurd h3 (by omega)
                  · intro h2
                    have h3 : route1 = [] := h2
                    rw [hroute1] at h3
                    simp at h3
                · right
                  exact ⟨p0, t, hp0, hroute1, ht⟩
                · intro _
                  right
                  show condEval path (i' - 1) cur1 = .ok true
                  exact hct
            · -- zero-climb from i0 = i' ≥ 1 : contradicts the invariant
              exfalso
              rcases hCL (by omega) with ⟨pst, prevLs, hpst, hplines, hplen, _⟩ | hctrue
              · have h2 : pyGet path (i' - 1) = some pst := by
                  rw [← hsame]
                  exact hpst
                have h3 : st = pst := Option.some.inj (hst.symm.trans h2)
                rw [← h3] at hplines
                have h4 : ls = prevLs := Option.some.inj (hlm.symm.trans hplines)
                rw [← h4] at hplen
                exact hone hplen
              · rw [hsame, hcf] at hctrue
                have h2 : false = true := Except.ok.inj hctrue
                exact absurd h2 (by simp)

/-- Post-processing only rewrites fields, never constructors: it
preserves the skeleton map. -/
theorem postAux_skel : ∀ k i route out, postAux k i route = .ok out →
    out.map skel = route.map skel := by
  intro k
  induction k with
  | zero =>
    intro i route out h
    unfold postAux at h
    have h2 := Except.ok.inj h
    rw [← h2]
  | succ f ih =>
    intro i route out h
    cases hi : route.get? i with
    | none =>
      rw [postAux_none f i route hi] at h
      have h2 := Except.ok.inj h
      rw [← h2]
    | some act =>
      cases act with
      | goTo d fr ln0 stops0 tl0 =>
        rw [postAux_goTo f i route d fr ln0 stops0 tl0 hi] at h
        split at h
        · exact absurd h (by simp)
        · split at h
          · exact absurd h (by simp)
          · split at h
            · exact absurd h (by simp)
            · have h2 := ih (i+1) _ out h
              rw [h2]
              exact map_skel_set hi rfl
      | transfer a0 fl0 tl0 =>
        rw [postAux_transfer f i route a0 fl0 tl0 hi] at h
        have h2 := ih (i+1) _ out h
        rw [h2]
        apply map_skel_set hi
        cases hp : (if i = 0 then route.getLast? else route.get? (i-1)) with
        | none => rfl
        | some prev => cases prev <;> rfl
      | beginAt st0 =>
        rw [postAux_beginAt f i route st0 hi] at h
        exact ih (i+1) _ out h
      | arriveAt st0 =>
        rw [postAux_arriveAt f i route st0 hi] at h
        exact ih (i+1) _ out h

section RunBodyEquations

variable {path : List String} {s : St}

theorem runBody_nonzero (hz : ¬ (s.i = 0)) :
    runBody path s = runScanPart path s.i s.route s.buf s.bg s.cur := by
  simp only [runBody]
  rw [if_neg hz]

theorem runBody_zero_pyNone (hz : s.i = 0) (hp : pyGet path 0 = none) :
    runBody path s = .inl (some (.error .indexError)) := by
  simp only [runBody]
  rw [if_pos hz]
  simp only [hp]

theorem runBody_zero_keyErr (hz : s.i = 0) {p0 : String}
    (hp : pyGet path 0 = some p0) (hsl : stationLines p0 = none) :
    runBody path s = .inl (some (.error .keyError)) := by
  simp only [runBody]
  rw [if_pos hz]
  simp only [hp, hsl]

theorem runBody_zero_emptyLines (hz : s.i = 0) {p0 : String}
    (hp : pyGet path 0 = some p0) (hsl : stationLines p0 = some []) :
    runBody path s = .inl (some (.error .indexError)) := by
  simp only [runBody]
  rw [if_pos hz]
  simp only [hp, hsl]

theorem runBody_zero (hz : s.i = 0) {p0 : String} {l : Line} {ls2 : List Line}
    (hp : pyGet path 0 = some p0) (hsl : stationLines p0 = some (l :: ls2)) :
    runBody path s = runScanPart path s.i (s.route ++ [.beginAt p0]) s.buf p0 l := by
  simp only [runBody]
  rw [if_pos hz]
  simp only [hp, hsl]

end RunBodyEquations

theorem goodOutcome_of_badA {path : List String}
    {o : Sum (Option (Except Err (List Action))) St}
    (h : BadAOutcome path o) : GoodOutcome path o :=
  ⟨fun r hr => absurd hr (h.1 r), fun s' hs' => Or.inr (Or.inl (h.2 s' hs'))⟩

/-- The body of the loop from a `BadA` state: never a normal return, and
any successor state is `BadA` again. -/
theorem runScanPart_badA {path : List String} {i0 : Int} {route1 : List Action}
    {buf0 : List String} {bg1 : String} {cur1 : Line}
    (hlen : 2 ≤ path.length) (hSA : ∀ c, condEval path 0 c ≠ .ok true)
    (hi0 : i0 ≤ 0) :
    BadAOutcome path (runScanPart path i0 route1 buf0 bg1 cur1) := by
  rcases @scanAux_neg path cur1 (2 * path.length + 2) i0 buf0 hi0 hlen hSA with
    hfo | ⟨j, b, e, hscan, hj, hidx⟩
  · rw [runScanPart_fuelOut hfo]
    exact badAOutcome_none
  · cases e with
    | none =>
      rw [runScanPart_exc_none hscan]
      cases hpg : pyGet path (j - 1) with
      | none =>
        rw [step4_pyGet_none hpg]
        exact badAOutcome_error _
      | some st =>
        cases hlm : stationLines st with
        | none =>
          rw [step4_lines_none hpg hlm]
          exact badAOutcome_error _
        | some ls =>
          by_cases hone : 1 < ls.length
          · cases ls with
            | nil => simp at hone
            | cons l' ls2 =>
              cases hnxt : pyGet path (j - 1 + 1) with
              | none =>
                rw [step4_multi_nxt_none hpg hlm hone hnxt]
                exact badAOutcome_error _
              | some nxt =>
                cases hnls : stationLines nxt with
                | none =>
                  rw [step4_multi_nls_none hpg hlm hone hnxt hnls]
                  exact badAOutcome_error _
                | some nls =>
                  cases hnhd : nls.head? with
                  | none =>
                    rw [step4_multi_head_none hpg hlm hone hnxt hnls hnhd]
                    exact badAOutcome_error _
                  | some nl0 =>
                    rw [step4_multi hpg hlm hone hnxt hnls hnhd]
                    apply badAOutcome_inr
                    refine ⟨hlen, hSA, ?_, fun _ => by simp⟩
                    show j - 1 + 1 ≤ 0
                    omega
          · rw [step4_single hpg hlm hone]
            apply badAOutcome_inr
            refine ⟨hlen, hSA, ?_, ?_⟩
            · show j - 1 ≤ 0
              omega
            · intro h0'
              have h1' : j - 1 = 0 := h0'
              exact absurd h1' (by omega)
    | some e2 =>
      cases e2 with
      | keyError =>
        rw [runScanPart_keyError hscan]
        exact badAOutcome_error _
      | valueError =>
        rw [runScanPart_valueError hscan]
        exact badAOutcome_error _
      | indexError =>
        have hne : ¬ (j = (path.length : Int) - 1) := by omega
        rw [runScanPart_idx_ne hscan hne, step4_pyGet_none (hidx rfl)]
        exact badAOutcome_error _

/-- From a `BadB` state the scan climbs one step, falls back, and the
loop re-enters the same kind of state. -/
theorem runScanPart_badB {path : List String} {route1 : List Action}
    {buf0 : List String} {bg1 : String} {p0 : String} {l : Line}
    (hp0 : pyGet path 0 = some p0) (hlines : stationLines p0 = some [l])
    (hc0 : condEval path 0 l = .ok true) (hc1 : condEval path 1 l = .ok false) :
    runScanPart path 0 route1 buf0 bg1 l = .inr ⟨0, route1, buf0 ++ [p0], bg1, l⟩ := by
  have hscan : scanAux path l (2 * path.length + 2) 0 buf0 =
      .res 1 (buf0 ++ [p0]) none := by
    rw [show 2 * path.length + 2 = (2 * path.length + 1) + 1 from rfl]
    simp only [scanAux, hc0, hp0]
    rw [show (0:Int) + 1 = 1 from rfl]
    simp only [scanAux, hc1]
  rw [runScanPart_exc_none hscan]
  rw [show (1:Int) - 1 = 0 from by decide]
  exact step4_single hp0 hlines (by simp)

/-- One loop-body step from any invariant state keeps the invariant and
makes any normal return well-formed. -/
theorem runBody_inv {path : List String} {s : St} (h : Inv path s) :
    GoodOutcome path (runBody path s) := by
  rcases h with hg | hba | hbb
  · obtain ⟨hi0, hile, hiff, hshape, hCL⟩ := hg
    by_cases hz : s.i = 0
    · have hroute : s.route = [] := hiff.mp hz
      obtain ⟨p0, hp0⟩ := pyGet_some_of_bounds (l := path) (i := 0) (by omega) (by omega)
      cases hsl : stationLines p0 with
      | none =>
        rw [runBody_zero_keyErr hz hp0 hsl]
        exact goodOutcome_error _
      | some ls =>
        cases ls with
        | nil =>
          rw [runBody_zero_emptyLines hz hp0 hsl]
          exact goodOutcome_error _
        | cons l ls2 =>
          rw [runBody_zero hz hp0 hsl]
          apply runScanPart_good hi0 hile
          · refine ⟨p0, [], hp0, ?_, rfl⟩
            rw [hroute]
            rfl
          · intro h1
            rw [hz] at h1
            exact absurd h1 (by decide)
          · intro _
            exact ⟨p0, l :: ls2, hp0, hsl, rfl⟩
    · rw [runBody_nonzero hz]
      apply runScanPart_good hi0 hile
      · rcases hshape with hnil | hsh
        · exact absurd (hiff.mpr hnil) hz
        · exact hsh
      · exact hCL
      · intro h1
        exact absurd h1 hz
  · apply goodOutcome_of_badA
    obtain ⟨hlen, hSA, hile0, hne⟩ := hba
    by_cases hz : s.i = 0
    · obtain ⟨p0, hp0⟩ := pyGet_some_of_bounds (l := path) (i := 0) (by omega) (by omega)
      cases hsl : stationLines p0 with
      | none =>
        rw [runBody_zero_keyErr hz hp0 hsl]
        exact badAOutcome_error _
      | some ls =>
        cases ls with
        | nil =>
          rw [runBody_zero_emptyLines hz hp0 hsl]
          exact badAOutcome_error _
        | cons l ls2 =>
          rw [runBody_zero hz hp0 hsl]
          exact runScanPart_badA hlen hSA (le_of_eq hz)
    · rw [runBody_nonzero hz]
      exact runScanPart_badA hlen hSA hile0
  · obtain ⟨hlen3, hz, hroute, p0, l, hp0, hsl, hc0, hc1⟩ := hbb
    rw [runBody_zero hz hp0 hsl]
    rw [show s.i = (0:Int) from hz]
    rw [runScanPart_badB hp0 hsl hc0 hc1]
    apply goodOutcome_inr
    right; right
    exact ⟨hlen3, rfl, by simp, p0, l, hp0, hsl, hc0, hc1⟩

/-- The compile loop, started from any invariant state, only ever
`break`s with a well-formed route. -/
theorem loopIter_inv : ∀ (fuel : Nat) (path : List String) (s : St)
    (out : List Action), Inv path s →
    loopIter path fuel s = some (.ok out) → GoodOut path out := by
  intro fuel
  induction fuel with
  | zero =>
    intro path s out _ h
    exact absurd h (by simp [loopIter])
  | succ f ih =>
    intro path s out hinv h
    unfold loopIter at h
    by_cases hguard : s.i < (path.length : Int)
    · rw [if_pos hguard] at h
      cases hrb : runBody path s with
      | inl r =>
        simp only [hrb] at h
        exact (runBody_inv hinv).1 out (by rw [hrb, h])
      | inr s' =>
        simp only [hrb] at h
        exact ih path s' out ((runBody_inv hinv).2 s' hrb) h
    · rw [if_neg hguard] at h
      exfalso
      rcases hinv with ⟨hi0, hile, _⟩ | ⟨hlen, _, hile0, _⟩ | ⟨hlen3, hz, _⟩
      · omega
      · omega
      · rw [hz] at hguard
        omega

theorem pyGet_last {l : List α} (h : l ≠ []) :
    pyGet l ((l.length : Int) - 1) = l.getLast? := by
  have hlen : 1 ≤ l.length := List.length_pos.mpr h
  rw [pyGet_nonneg (by omega)]
  have h3 := Int.toNat_of_nonneg (show (0:Int) ≤ (l.length : Int) - 1 by omega)
  have h4 : ((l.length : Int) - 1).toNat = l.length - 1 := by omega
  rw [h4, List.getLast?_eq_get?]

/-- Any route returned normally on a non-empty path is well-formed:
the compile loop guarantees `GoodOut` for the raw route, and the
post-processing pass preserves the constructor skeleton. -/
theorem get_route_goodOut {fuel : Nat} {path : List String} {r : List Action}
    (hne : path ≠ []) (h : get_route_from_path fuel path = some (.ok r)) :
    GoodOut path r := by
  unfold get_route_from_path at h
  cases hl : loopIter path fuel ⟨0, [], [], "", .CTL⟩ with
  | none => rw [hl] at h; exact absurd h (by simp)
  | some res =>
    rw [hl] at h
    cases res with
    | error e => exact absurd h (by simp)
    | ok compiled =>
      have hpost : postprocess compiled = .ok r := by
        injection h with h2
      have hinit : Inv path ⟨0, [], [], "", .CTL⟩ := by
        left
        refine ⟨le_refl 0, ?_, ⟨fun _ => rfl, fun _ => rfl⟩, Or.inl rfl,
          fun h1 => absurd h1 (by decide)⟩
        have hlen : 1 ≤ path.length := List.length_pos.mpr hne
        show (0:Int) ≤ (path.length : Int) - 1
        omega
      have hgood := loopIter_inv fuel path _ compiled hinit hl
      obtain ⟨q0, plast, hq0, hpl, hhead, hlastc, hfin⟩ := hgood
      have hmap : r.map skel = compiled.map skel :=
        postAux_skel compiled.length 0 compiled r hpost
      refine ⟨q0, plast, hq0, hpl, ?_, ?_, ?_⟩
      · have hh2 : r.head?.map skel = compiled.head?.map skel := by
          rw [← List.head?_map, ← List.head?_map, hmap]
        rw [hhead] at hh2
        cases hr : r.head? with
        | none => rw [hr] at hh2; exact absurd hh2 (by simp)
        | some a =>
          rw [hr] at hh2
          have ha : skel a = Action.beginAt q0 := Option.some.inj hh2
          cases a with
          | beginAt s =>
            have hs : s = q0 := by simpa [skel] using ha
            rw [hs]
          | goTo _ _ _ _ _ => exact absurd ha (by simp [skel])
          | transfer _ _ _ => exact absurd ha (by simp [skel])
          | arriveAt _ => exact absurd ha (by simp [skel])
      · have hh2 : r.getLast?.map skel = compiled.getLast?.map skel := by
          rw [← List.getLast?_map, ← List.getLast?_map, hmap]
        rw [hlastc] at hh2
        cases hr : r.getLast? with
        | none => rw [hr] at hh2; exact absurd hh2 (by simp)
        | some a =>
          rw [hr] at hh2
          have ha : skel a = Action.arriveAt plast := Option.some.inj hh2
          cases a with
          | arriveAt s =>
            have hs : s = plast := by simpa [skel] using ha
            rw [hs]
          | goTo _ _ _ _ _ => exact absurd ha (by simp [skel])
          | transfer _ _ _ => exact absurd ha (by simp [skel])
          | beginAt _ => exact absurd ha (by simp [skel])
      · rw [← finShape_map_skel, hmap, finShape_map_skel]
        exact hfin

/-- C3 (amended to non-empty paths; the empty path returns the empty
itinerary, see the counterexample): whenever `get_route_from_path`
returns normally on a non-empty path, the itinerary has no two
consecutive `Transfer`s, neither its first nor its last element is a
`Transfer`, and it alternates as
`BeginAt, (GoTo, Transfer)*, GoTo, ArriveAt`. -/
theorem C3_alternation (fuel : Nat) (path : List String) (r : List Action)
    (hne : path ≠ []) (h : get_route_from_path fuel path = some (.ok r)) :
    noConsecutiveTransfers r = true ∧
    (∀ a, r.head? = some a → a.isTransfer = false) ∧
    (∀ a, r.getLast? = some a → a.isTransfer = false) ∧
    finShape r = true := by
  obtain ⟨p0, plast, _, _, hhead, hlast, hfin⟩ := get_route_goodOut hne h
  refine ⟨finShape_noConsec hfin, ?_, ?_, hfin⟩
  · intro a ha
    rw [hhead] at ha
    rw [← Option.some.inj ha]
    rfl
  · intro a ha
    rw [hlast] at ha
    rw [← Option.some.inj ha]
    rfl

/-- Counterexample to C3 as stated: the empty path is accepted
(returns normally with the empty itinerary), and the empty itinerary
does not have the `BeginAt … ArriveAt` alternation shape. -/
theorem C3_cex :
    get_route_from_path 1 ([] : List String) = some (.ok []) ∧
    finShape ([] : List Action) = false :=
  ⟨by rfl, by rfl⟩

/-- Witness of `C3_alternation` on a concrete accepted path. -/
theorem C3_witness :
    noConsecutiveTransfers [Action.beginAt "hasiph",
      .goTo "southbridge" "hasiph" .CTL ["hasiph", "korihasiph", "southbridge"] none,
      .arriveAt "southbridge"] = true ∧
    (∀ a, [Action.beginAt "hasiph",
      .goTo "southbridge" "hasiph" .CTL ["hasiph", "korihasiph", "southbridge"] none,
      .arriveAt "southbridge"].head? = some a → a.isTransfer = false) ∧
    (∀ a, [Action.beginAt "hasiph",
      .goTo "southbridge" "hasiph" .CTL ["hasiph", "korihasiph", "southbridge"] none,
      .arriveAt "southbridge"].getLast? = some a → a.isTransfer = false) ∧
    finShape [Action.beginAt "hasiph",
      .goTo "southbridge" "hasiph" .CTL ["hasiph", "korihasiph", "southbridge"] none,
      .arriveAt "southbridge"] = true :=
  C3_alternation 1 ["hasiph", "korihasiph", "southbridge"]
    [.beginAt "hasiph",
     .goTo "southbridge" "hasiph" .CTL ["hasiph", "korihasiph", "southbridge"] none,
     .arriveAt "southbridge"] (by decide) (by rfl)

/-- C4: for every path of `n ≥ 1` stations on which `get_route_from_path`
returns normally, the itinerary starts with `BeginAt(path[0])` and ends
with `ArriveAt(path[n-1])`. -/
theorem C4_endpoints (fuel : Nat) (p0 : String) (rest : List String)
    (r : List Action)
    (h : get_route_from_path fuel (p0 :: rest) = some (.ok r)) :
    r.head? = some (.beginAt p0) ∧
    ∃ plast, (p0 :: rest).getLast? = some plast ∧
      r.getLast? = some (.arriveAt plast) := by
  obtain ⟨q0, plast, hq0, hpl, hhead, hlast, _⟩ :=
    get_route_goodOut (by simp) h
  have hq0' : q0 = p0 := by
    rw [pyGet_zero_of_ne_nil (by simp)] at hq0
    exact (Option.some.inj hq0).symm
  refine ⟨by rw [hhead, hq0'], plast, ?_, hlast⟩
  rw [← pyGet_last (by simp)]
  exact hpl

/-- Witness of `C4_endpoints` on a concrete accepted path. -/
theorem C4_witness :
    [Action.beginAt "hasiph",
     .goTo "southbridge" "hasiph" .CTL ["hasiph", "korihasiph", "southbridge"] none,
     .arriveAt "southbridge"].head? = some (.beginAt "hasiph") ∧
    ∃ plast, ["hasiph", "korihasiph", "southbridge"].getLast? = some plast ∧
      [Action.beginAt "hasiph",
       .goTo "southbridge" "hasiph" .CTL ["hasiph", "korihasiph", "southbridge"] none,
       .arriveAt "southbridge"].getLast? = some (.arriveAt plast) :=
  C4_endpoints 1 "hasiph" ["korihasiph", "southbridge"]
    [.beginAt "hasiph",
     .goTo "southbridge" "hasiph" .CTL ["hasiph", "korihasiph", "southbridge"] none,
     .arriveAt "southbridge"] (by rfl)

end Metro
